import Mathlib

/-!
Verification of the gaitbase field-binding / synchronization engine
(`src/gaitbase/sql_entryapp.py`) and of the report-template semantics
documented in `src/gaitbase/templates/text_template.py`.

The Python code is shallowly embedded:

* Python dicts keyed by strings become association lists (`StrMap`) with
  Python's dict-assignment (`d[k] = v`), membership and `|` (union, right
  operand wins) semantics.
* Dynamically typed SQLite values become the `Val` inductive (text, numeric
  or SQL NULL); numbers are rationals, since Python `/` is true division.
* The Qt widget layer is embedded as a list of `Widget`s: each widget keeps
  its current `getVal`-level value, the pair of `_autoinputs` names when it
  is a weight-normalized autowidget, and whether its change signal is
  connected to `EntryApp.values_changed` (spin/combo/check boxes are
  connected; line edits and comment boxes update on focus-out instead).
  Qt emits a change signal only when a `setValue` call actually changes the
  stored value; the signal re-enters `values_changed`, which is embedded
  with an explicit fuel parameter to make the re-entrancy structural.
* Database writes (`EntryApp.update_rom`) either succeed or fail
  non-fatally when the database is locked, in which case a dialog message
  is recorded and the row is left unchanged (`db_failure(fatal=False)`).

The report renderer (`gaitbase.reporter`) is not part of the sources; its
semantics is modelled from the spec and from the documented template format
in `templates/text_template.py`, see the `Modelled from the spec:` comments.
-/

namespace Gaitbase

/-! ## Association lists with Python dict semantics -/

/-- A Python dict keyed by strings, embedded as an association list whose
key order is insertion order (as in CPython). -/
abbrev StrMap (α : Type) := List (String × α)

/-- Python `m[k]` as an `Option` (`none` when the key is absent). -/
def dictGet {α : Type} : StrMap α → String → Option α
  | [], _ => none
  | (k', v) :: rest, k => if k' = k then some v else dictGet rest k

/-- Python `m[k] = v`: overwrite in place if the key exists, else append. -/
def dictSet {α : Type} : StrMap α → String → α → StrMap α
  | [], k, v => [(k, v)]
  | (k', v') :: rest, k, v =>
    if k' = k then (k, v) :: rest else (k', v') :: dictSet rest k v

/-- Python `list(m.keys())`. -/
def dictKeys {α : Type} (m : StrMap α) : List String := m.map Prod.fst

/-- Python `k in m`. -/
def dictContains {α : Type} (m : StrMap α) (k : String) : Bool :=
  (dictGet m k).isSome

/-- Python `a | b` on dicts: keys of `a` in order (values overridden by `b`
where present), then the keys of `b` not in `a`, in `b`'s order. -/
def dictUnion {α : Type} (a b : StrMap α) : StrMap α :=
  a.map (fun p => (p.1, (dictGet b p.1).getD p.2)) ++
    b.filter (fun p => !(dictContains a p.1))

/-! ## Values -/

/-- A dynamically typed SQLite/widget value: the code performs no type
conversion, so a field may hold text or a number; `null` is the SQL NULL
marker used for values missing from the database. -/
inductive Val where
  | str (s : String)
  | num (q : ℚ)
  | null
deriving DecidableEq

/-- Modelled from the spec: `Constants.spinbox_novalue_text` lives in
`gaitbase/constants.py`, which is not among the sources; it is the text
standing for "not measured" spinbox values ('Ei mitattu'). -/
def spinbox_novalue_text : String := "Ei mitattu"

/-- The "not measured" sentinel at the `getVal` level of a spinbox
(`spinbox_getval` translates the spinbox minimum to this text). -/
def noval : Val := Val.str spinbox_novalue_text

/-- Python `/` on two values. The source divides `val / weight` where both
operands come from numeric spinboxes, so both are numbers whenever this is
reached; a non-numeric operand would raise `TypeError` in Python and the
first-operand fallback below is never taken. -/
def Val.div : Val → Val → Val
  | .num a, .num b => .num (a / b)
  | a, _ => a

/-- The weight-normalization rule of `_weight_normalize`
(sql_entryapp.py:349-353): sentinel if either the source value or the
weight is the sentinel, else `val / weight`. -/
def weight_normalize (val weight : Val) : Val :=
  if val = noval ∨ weight = noval then noval else Val.div val weight

/-! ## Widgets and application state -/

/-- An input widget as `init_widgets` leaves it: its object name, its
current `getVal`-level value, its `_autoinputs` pair
`(unnormalized source, weight widget)` when it is a 'Norm' autowidget,
whether its change signal is connected to `values_changed`, and its
Qt enabled flag. -/
structure Widget where
  name : String
  val : Val
  autoinputs : Option (String × String)
  connected : Bool
  enabled : Bool
deriving DecidableEq

/-- The `EntryApp` state: input widgets, the internal data dict, the frozen
defaults (`data_empty`), the `update_dict` guard, the ROM row of the SQL
database, whether the database is currently locked (writes fail), the
dialog messages shown so far, and the `save_to_tmp` flag. -/
structure AppState where
  widgets : List Widget
  data : StrMap Val
  data_empty : StrMap Val
  update_dict : Bool
  db : StrMap Val
  dbLocked : Bool
  msgs : List String
  save_to_tmp : Bool
deriving DecidableEq

/-- `self.input_widgets[wname]` (first widget with the given object name). -/
def AppState.findWidget (st : AppState) (wname : String) : Option Widget :=
  st.widgets.find? (fun w => w.name == wname)

/-- Store a new value into a widget, leaving everything else unchanged
(the widget-internal half of `setVal`/`setValue`). -/
def writeWidget (st : AppState) (wname : String) (v : Val) : AppState :=
  { st with widgets := (st.widgets.map
      (fun w => if w.name = wname then { w with val := v } else w)) }

/-- Python `w in widget._autoinputs` (widget identity embedded by name). -/
def autoinputsContain (a : Widget) (wname : String) : Bool :=
  match a.autoinputs with
  | some (s, n) => s == wname || n == wname
  | none => false

/-- The value `_weight_normalize` computes for autowidget `a`:
`val, weight = (w.getVal() for w in w._autoinputs)` then the
normalization rule. Failing widget lookups cannot happen: `init_widgets`
resolves the `_autoinputs` of every autowidget (a missing widget would be
a `KeyError` at startup), in which case the sentinel fallback is unused. -/
def autocalc_value (st : AppState) (a : Widget) : Val :=
  match a.autoinputs with
  | some (srcName, weightName) =>
    match st.findWidget srcName, st.findWidget weightName with
    | some ws, some wn => weight_normalize ws.val wn.val
    | _, _ => noval
  | none => a.val

/-- Message recorded by `db_failure(query, fatal=False)`: the dialog text
(the embedded model keeps only a fixed marker for it). -/
def db_error_msg : String := "Got a database error"

/-- `EntryApp.update_rom` specialized to the one-field calls issued by
`values_changed`: on a locked database the `UPDATE` fails and is reported
non-fatally (dialog message, row untouched); otherwise the row is updated. -/
def update_rom_single (st : AppState) (var : String) (val : Val) : AppState :=
  if st.dbLocked then { st with msgs := db_error_msg :: st.msgs }
  else { st with db := dictSet st.db var val }

/-- `EntryApp.update_rom(vars, values)` in full: raises `ValueError` when
the argument lists have different lengths, else performs the update,
reporting a locked database non-fatally. -/
def update_rom (st : AppState) (vars : List String) (values : List Val) :
    Except String AppState :=
  if vars.length = values.length then
    .ok (if st.dbLocked then { st with msgs := db_error_msg :: st.msgs }
      else { st with db := ((vars.zip values).foldl
        (fun d p => dictSet d p.1 p.2) st.db) })
  else .error "ValueError: Arguments need to be of equal length"

/-- Variable name from widget object name (`self.widget_to_var`):
comment boxes keep their name, `csb` widgets drop 3 characters, all other
input widgets drop the 2-character type code. -/
def widget_to_var (wname : String) : String :=
  if wname.take 3 = "cmt" then wname
  else if wname.take 3 = "csb" then wname.drop 3
  else wname.drop 2

/-- `EntryApp.values_changed(w)` together with the synchronous Qt signal
dispatch it triggers. First every autowidget whose `_autoinputs` contain
`w` is recomputed (`_autocalculate`); storing the recomputed value emits
`valueChanged` when the stored value actually changes, which re-enters
`values_changed` on the autowidget. Then, if `update_dict` is set, the
internal data dict entry for `w`'s variable is updated and the
corresponding single-field SQL update is issued. The `fuel` argument
bounds the signal re-entrancy depth (the source's fan-out is one level
deep, so any fuel ≥ 2 is enough for a top-level call). -/
def values_changed : Nat → AppState → String → AppState
  | 0, st, _ => st
  | Nat.succ fuel, st, wname =>
    let autos := st.widgets.filter (fun a => autoinputsContain a wname)
    let st1 := autos.foldl (fun acc a =>
      match acc.findWidget a.name with
      | none => acc
      | some cur =>
        let newval := autocalc_value acc cur
        let acc1 := writeWidget acc a.name newval
        if cur.connected = true ∧ ¬ newval = cur.val then
          values_changed fuel acc1 a.name
        else acc1) st
    if st1.update_dict then
      match st1.findWidget wname with
      | none => st1
      | some w =>
        let varname := widget_to_var wname
        let newval := w.val
        update_rom_single { st1 with data := dictSet st1.data varname newval }
          varname newval
    else st1

/-- `w.setVal(v)` on an input widget: store the value; a connected widget
whose stored value actually changed emits its change signal, invoking
`values_changed`. -/
def widget_setVal (fuel : Nat) (st : AppState) (wname : String) (v : Val) :
    AppState :=
  match st.findWidget wname with
  | none => st
  | some cur =>
    let st1 := writeWidget st wname v
    if cur.connected = true ∧ ¬ v = cur.val then values_changed fuel st1 wname
    else st1

/-- A presentation-layer edit of widget `wname` to value `v` followed by
the change notification it raises (the registry-level `set`): the widget
stores `v` and `values_changed` runs on it. -/
def user_set (fuel : Nat) (st : AppState) (wname : String) (v : Val) :
    AppState :=
  values_changed fuel (writeWidget st wname v) wname

/-- Whether `wname` names a derived (auto-calculated) widget. -/
def isDerived (st : AppState) (wname : String) : Bool :=
  match st.findWidget wname with
  | some w => w.autoinputs.isSome
  | none => false

/-- Modelled from the spec: the Field Registry's public
`set(name, value)`, "rejected with `ReadOnlyFieldError` if `name` is a
derived field". The error type is not in the sources; the code realizes
the rejection by disabling every autowidget (`w.setEnabled(False)`,
sql_entryapp.py:371-373) so that no edit path exists for derived fields.
A rejected call returns the error and produces no successor state. -/
def registry_set (fuel : Nat) (st : AppState) (wname : String) (v : Val) :
    Except String AppState :=
  if isDerived st wname then .error "ReadOnlyFieldError"
  else .ok (user_set fuel st wname v)

/-- The `init_widgets` step that disables autowidgets: "autowidget values
cannot be directly modified". -/
def disable_autowidgets (ws : List Widget) : List Widget :=
  ws.map (fun w => if w.autoinputs.isSome then { w with enabled := false }
    else w)

/-- `EntryApp.read_forms`: refresh every data-dict entry from its widget. -/
def read_forms (st : AppState) : AppState :=
  st.widgets.foldl (fun acc w =>
    { acc with data := dictSet acc.data (widget_to_var w.name) w.val }) st

/-- `EntryApp.restore_forms`: disable the `update_dict` guard (and
`save_to_tmp`), write every data-dict value back into its widget with
`setVal` — which may fire change signals — and re-enable the flags.
The data dict holds an entry for every input widget (populated by
`read_forms` at construction), so the `KeyError` skip branch is unused. -/
def restore_forms (fuel : Nat) (st : AppState) : AppState :=
  let st1 := { st with save_to_tmp := false, update_dict := false }
  let st2 := st1.widgets.foldl (fun acc w =>
    match dictGet acc.data (widget_to_var w.name) with
    | some v => widget_setVal fuel acc w.name v
    | none => acc) st1
  { st2 with save_to_tmp := true, update_dict := true }

/-- The `record_di` dict comprehension of `EntryApp._read_data`: the
selected variables paired with their non-NULL database values (a column
that is SQL NULL — or absent, which this layer surfaces the same way —
is skipped). -/
def read_row (db : StrMap Val) (vars : List String) : StrMap Val :=
  vars.filterMap (fun v =>
    match dictGet db v with
    | some q => if q = Val.null then none else some (v, q)
    | none => none)

/-- `EntryApp._read_data`: select every registered variable from the ROM
row, overwrite the data dict with `self.data_empty | record_di`, and
restore the widgets from it. -/
def read_data (fuel : Nat) (st : AppState) : AppState :=
  let vars := dictKeys st.data
  let record_di : StrMap Val := read_row st.db vars
  restore_forms fuel { st with data := dictUnion st.data_empty record_di }

/-- `EntryApp.__init__` up to the point where the defaults baseline is
frozen: collect the input widgets (autowidgets disabled), start from an
empty data dict, `read_forms` to read the default widget values, and
freeze `data_empty` as a copy of the result. -/
def init_app (ws : List Widget) (db : StrMap Val) (locked : Bool) : AppState :=
  let st1 := read_forms
    { widgets := disable_autowidgets ws, data := [], data_empty := [],
      update_dict := true, db := db, dbLocked := locked, msgs := [],
      save_to_tmp := true }
  { st1 with data_empty := st1.data }

/-! ## Checkbox state mapping (sql_entryapp.py:275-298) -/

/-- `checkbox_getval`: Qt check state 0 reads as the "not yes" label and
state 2 as the "yes" label; any other state (in particular the
indeterminate state 1) raises. -/
def checkbox_getval (checkState : Nat) (no_text yes_text : String) :
    Except String String :=
  if checkState = 0 then .ok no_text
  else if checkState = 2 then .ok yes_text
  else .error ("Unexpected checkbox value: " ++ toString checkState)

/-- `checkbox_setval`: the "yes" label stores state 2 and the "not yes"
label stores state 0; any other value raises. -/
def checkbox_setval (v no_text yes_text : String) : Except String Nat :=
  if v = yes_text then .ok 2
  else if v = no_text then .ok 0
  else .error ("Unexpected checkbox entry value: " ++ v)

/-! ## Backup export (sql_entryapp.py:238-250, 595-600) -/

/-- The read-only patient identity fields, taken from the patients table
rather than the ROM record. -/
structure PatientIdData where
  patient_code : String
  firstname : String
  lastname : String
  ssn : String
  diagnosis : String
deriving DecidableEq

/-- `EntryApp.get_patient_id_data`: identity fields under the legacy key
names. -/
def get_patient_id_data (p : PatientIdData) : StrMap Val :=
  [("TiedotID", .str p.patient_code),
   ("TiedotNimi", .str (p.firstname ++ " " ++ p.lastname)),
   ("TiedotHetu", .str p.ssn),
   ("TiedotDiag", .str p.diagnosis)]

/-- Key order used by `json.dumps(..., sort_keys=True)`. -/
def keyLE (p q : String × Val) : Prop := p.1 ≤ q.1

instance : DecidableRel keyLE := fun p q => inferInstanceAs (Decidable (p.1 ≤ q.1))

instance : IsTotal (String × Val) keyLE := ⟨fun a b => le_total a.1 b.1⟩

instance : IsTrans (String × Val) keyLE := ⟨fun _ _ _ h h' => le_trans h h'⟩

/-- The flat JSON object `EntryApp.save_file` serializes: the data dict
merged with the identity fields (`self.data | self.get_patient_id_data()`),
in sorted key order. -/
def export_pairs (st : AppState) (p : PatientIdData) : StrMap Val :=
  List.insertionSort keyLE (dictUnion st.data (get_patient_id_data p))

/-- One JSON scalar (string escaping elided: the export claims concern
determinism, the key set and the key order, not the quoting rules). -/
def val_to_json : Val → String
  | .str s => "\"" ++ s ++ "\""
  | .num q => toString q
  | .null => "null"

/-- The byte content `EntryApp.save_file` writes: the sorted pairs
serialized as a flat JSON object in UTF-8. -/
def save_file_content (st : AppState) (p : PatientIdData) : String :=
  "\x7b\n " ++ String.intercalate ",\n "
    ((export_pairs st p).map (fun pr => "\"" ++ pr.1 ++ "\": " ++ val_to_json pr.2))
  ++ "\n\x7d"

/-! ## Report renderer

The renderer (`gaitbase.reporter`) is not among the sources; only its
behaviour is specified, by the spec's §4.2 and by the documented template
format in `src/gaitbase/templates/text_template.py`. The definitions below
are therefore modelled from the spec. The accumulating output is kept as a
reversed character list, so "the character last appended" is the head. -/

/-- Modelled from the spec: one template block — either a literal text
fragment with `\x7bfield\x7d` placeholders, or the smart end-of-line
marker `Constants.end_line`. -/
inductive Block where
  | lit (text : String)
  | smart_eol
deriving DecidableEq

/-- The placeholder-opening character. -/
def lbrace : Char := Char.ofNat 123

/-- The placeholder-closing character. -/
def rbrace : Char := Char.ofNat 125

/-- Scanner for placeholder names: outside a placeholder the accumulator is
`none`; inside, it holds the name characters read so far (reversed). An
unterminated placeholder contributes nothing. -/
def fieldsAux : List Char → Option (List Char) → List String
  | [], _ => []
  | c :: rest, none =>
    if c = lbrace then fieldsAux rest (some []) else fieldsAux rest none
  | c :: rest, some acc =>
    if c = rbrace then String.mk acc.reverse :: fieldsAux rest none
    else fieldsAux rest (some (c :: acc))

/-- Modelled from the spec: the *field set* of a literal block — the
placeholders it references. -/
def fieldRefs (text : String) : List String := fieldsAux text.data none

/-- Modelled from the spec: substitution of placeholders. Each
`\x7bfield\x7d` is replaced by the field's record value, run through the
value-replacement table (`cfg.report.replace_data`); a placeholder naming a
field absent from the record raises `UnknownFieldError`. -/
def substAux (rec repl : StrMap String) :
    List Char → Option (List Char) → Except String (List Char)
  | [], none => .ok []
  | [], some _ => .error "UnknownFieldError: unterminated placeholder"
  | c :: rest, none =>
    if c = lbrace then substAux rec repl rest (some [])
    else
      match substAux rec repl rest none with
      | .ok t => .ok (c :: t)
      | .error e => .error e
  | c :: rest, some acc =>
    if c = rbrace then
      let name := String.mk acc.reverse
      match dictGet rec name with
      | none => .error ("UnknownFieldError: " ++ name)
      | some v =>
        match substAux rec repl rest none with
        | .ok t => .ok (((dictGet repl v).getD v).data ++ t)
        | .error e => .error e
    else substAux rec repl rest (some (c :: acc))

/-- Substitute every placeholder of a literal block's text. -/
def substitute (rec repl : StrMap String) (text : String) :
    Except String (List Char) :=
  substAux rec repl text.data none

/-- Modelled from the spec: strip any trailing run of `", "` (the output
is reversed, so the run sits at the head as `' ' :: ',' :: _`). -/
def stripTrailingSeps : List Char → List Char
  | ' ' :: ',' :: rest => stripTrailingSeps rest
  | l => l

/-- Modelled from the spec: `SMART_EOL` processing over the reversed
output — nothing is emitted when the character last appended is already a
newline; otherwise the trailing `", "` run is stripped and `".\n"`
appended. -/
def smart_eol_step (out : List Char) : List Char :=
  match out with
  | '\n' :: _ => out
  | _ => '\n' :: '.' :: stripTrailingSeps out

/-- Whether the next contribution starts a line: the output is empty or
the character last appended is a newline. -/
def atLineStart (out : List Char) : Bool :=
  match out with
  | [] => true
  | c :: _ => c = '\n'

/-- Upper-case the first character of a block's rendered text. -/
def capitalizeFirst : List Char → List Char
  | [] => []
  | c :: rest => c.toUpper :: rest

/-- Modelled from the spec: render one block onto the reversed output. A
literal block whose field set is non-empty with every field in the
default/unmodified set is discarded; a surviving block is substituted,
capitalized when it starts a line, and appended. `SMART_EOL` applies
`smart_eol_step`. -/
def renderBlock (rec repl : StrMap String) (defaults : List String)
    (out : List Char) : Block → Except String (List Char)
  | .smart_eol => .ok (smart_eol_step out)
  | .lit text =>
    let refs := fieldRefs text
    if refs ≠ [] ∧ ∀ f ∈ refs, f ∈ defaults then .ok out
    else
      match substitute rec repl text with
      | .ok sub =>
        .ok ((if atLineStart out then capitalizeFirst sub else sub).reverse ++ out)
      | .error e => .error e

/-- Modelled from the spec: left-to-right rendering of a block sequence. -/
def renderBlocks (rec repl : StrMap String) (defaults : List String) :
    List Block → List Char → Except String (List Char)
  | [], out => .ok out
  | b :: bs, out =>
    match renderBlock rec repl defaults out b with
    | .ok out' => renderBlocks rec repl defaults bs out'
    | .error e => .error e

/-- Modelled from the spec: the full text report of a template. -/
def make_text_report (rec repl : StrMap String) (defaults : List String)
    (blocks : List Block) : Except String String :=
  match renderBlocks rec repl defaults blocks [] with
  | .ok out => .ok (String.mk out.reverse)
  | .error e => .error e

/-! ## Proof infrastructure -/

/-- The `_autocalculate` closure of one autowidget together with the Qt
signal it may emit: exactly the fold step of `values_changed`, factored
out so that lemmas can speak about it. -/
def autocalculate (fuel : Nat) (acc : AppState) (aname : String) : AppState :=
  match acc.findWidget aname with
  | none => acc
  | some cur =>
    let newval := autocalc_value acc cur
    let acc1 := writeWidget acc aname newval
    if cur.connected = true ∧ ¬ newval = cur.val then values_changed fuel acc1 aname
    else acc1

/-- The final phase of `values_changed`: the guarded data-dict update and
single-field SQL write for the changed widget itself. -/
def top_update (st1 : AppState) (wname : String) : AppState :=
  if st1.update_dict then
    match st1.findWidget wname with
    | none => st1
    | some w =>
      update_rom_single
        { st1 with data := dictSet st1.data (widget_to_var wname) w.val }
        (widget_to_var wname) w.val
  else st1

/-- The body of one `values_changed` step, expressed through
`autocalculate` and `top_update`: definitionally equal to
`values_changed (fuel+1)`. -/
def values_changed_body (fuel : Nat) (st : AppState) (wname : String) :
    AppState :=
  top_update
    ((st.widgets.filter (fun a => autoinputsContain a wname)).foldl
      (fun acc a => autocalculate fuel acc a.name) st) wname

/-- One step of the `restore_forms` loop: write the stored record value
back into one widget (definitionally the fold step of `restore_forms`). -/
def restore_step (fuel : Nat) (acc : AppState) (w : Widget) : AppState :=
  match dictGet acc.data (widget_to_var w.name) with
  | some v => widget_setVal fuel acc w.name v
  | none => acc

/-- The immutable part of a widget: object name, dependency wiring and
signal connectivity. Value updates never change it. -/
def widgetSig (w : Widget) : String × Option (String × String) × Bool :=
  (w.name, w.autoinputs, w.connected)

/-- The widget skeleton of a state. -/
def sk (st : AppState) : List (String × Option (String × String) × Bool) :=
  st.widgets.map widgetSig

/-- The widget object names of a state. -/
def wnames (st : AppState) : List String := st.widgets.map Widget.name

/-- One-level fan-out, as observed in the source: no autowidget is itself
an `_autoinput` of any widget (`_autoinputs` always name a plain
unnormalized widget and the weight widget). -/
def noAutoFeeds (st : AppState) : Prop :=
  ∀ a ∈ st.widgets, a.autoinputs.isSome = true →
    ∀ b ∈ st.widgets, autoinputsContain b a.name = false

/-- Every autowidget other than the one named `dn` stores its value under
a different variable name than `dn`'s. -/
def autoVarsDistinctFrom (st : AppState) (dn : String) : Prop :=
  ∀ a ∈ st.widgets, a.autoinputs.isSome = true → a.name ≠ dn →
    widget_to_var a.name ≠ widget_to_var dn

/-- The key-set invariant of the data dict: the record's keys are exactly
the defaults baseline's keys, and every input widget's variable is
registered in the record. -/
def keysInv (st : AppState) : Prop :=
  dictKeys st.data = dictKeys st.data_empty ∧
  ∀ w ∈ st.widgets, dictContains st.data (widget_to_var w.name) = true

/-! ## Concrete states for witnesses -/

/-- A small concrete widget population: an unnormalized source spinbox, the
weight spinbox, and the weight-normalized autowidget wired to them. -/
def demo_widgets : List Widget :=
  [{ name := "spXUn", val := noval, autoinputs := none, connected := true,
     enabled := true },
   { name := "spPaino", val := Val.num 2, autoinputs := none, connected := true,
     enabled := true },
   { name := "spX", val := noval, autoinputs := some ("spXUn", "spPaino"),
     connected := true, enabled := false }]

/-- A concrete steady application state over `demo_widgets`. -/
def demo_state : AppState :=
  { widgets := demo_widgets,
    data := [("XUn", noval), ("Paino", Val.num 2), ("X", noval)],
    data_empty := [("XUn", noval), ("Paino", Val.num 2), ("X", noval)],
    update_dict := true, db := [], dbLocked := false, msgs := [],
    save_to_tmp := true }

/-- The demo state with the database currently locked. -/
def demo_locked : AppState := { demo_state with dbLocked := true }

/-- The demo state over a ROM row holding a value for `XUn` and an SQL
NULL for `Paino`. -/
def demo_db_state : AppState :=
  { demo_state with db := [("XUn", Val.num 7), ("Paino", Val.null)] }

/-- Concrete patient identity data. -/
def demo_patient : PatientIdData :=
  { patient_code := "C01", firstname := "Testi", lastname := "Potilas",
    ssn := "010101-000X", diagnosis := "G80.1" }

/-! ## Dictionary lemmas -/

theorem dictGet_dictSet_self {α : Type} (m : StrMap α) (k : String) (v : α) :
    dictGet (dictSet m k v) k = some v := by
  induction m with
  | nil => simp [dictSet, dictGet]
  | cons p rest ih =>
    obtain ⟨k', v'⟩ := p
    by_cases h : k' = k
    · simp [dictSet, h, dictGet]
    · simp [dictSet, h, dictGet, ih]

theorem dictGet_dictSet_ne {α : Type} (m : StrMap α) (k k' : String) (v : α)
    (h : k ≠ k') : dictGet (dictSet m k v) k' = dictGet m k' := by
  induction m with
  | nil => simp [dictSet, dictGet, h]
  | cons p rest ih =>
    obtain ⟨k0, v0⟩ := p
    by_cases h0 : k0 = k
    · simp [dictSet, h0, dictGet, h]
    · by_cases h1 : k0 = k'
      · subst h1
        simp [dictSet, h0, dictGet]
      · simp [dictSet, h0, dictGet, h1, ih]

theorem dictContains_iff_mem_keys {α : Type} (m : StrMap α) (k : String) :
    dictContains m k = true ↔ k ∈ dictKeys m := by
  induction m with
  | nil => simp [dictContains, dictGet, dictKeys]
  | cons p rest ih =>
    obtain ⟨k0, v0⟩ := p
    by_cases h : k0 = k
    · simp [dictContains, dictGet, dictKeys, h]
    · simpa [dictContains, dictGet, dictKeys, h, Ne.symm h] using ih

theorem dictKeys_dictSet {α : Type} (m : StrMap α) (k : String) (v : α) :
    dictKeys (dictSet m k v) =
      if dictContains m k then dictKeys m else dictKeys m ++ [k] := by
  induction m with
  | nil => simp [dictSet, dictKeys, dictContains, dictGet]
  | cons p rest ih =>
    obtain ⟨k0, v0⟩ := p
    by_cases h0 : k0 = k
    · subst h0
      simp [dictSet, dictKeys, dictContains, dictGet]
    · have hc : dictContains ((k0, v0) :: rest) k = dictContains rest k := by
        simp [dictContains, dictGet, h0]
      rw [hc]
      by_cases h1 : dictContains rest k
      · simp only [dictSet, if_neg h0, dictKeys, List.map_cons, h1, if_true]
        simp only [dictKeys] at ih
        rw [ih, if_pos h1]
      · simp only [dictSet, if_neg h0, dictKeys, List.map_cons, h1, if_false]
        simp only [dictKeys] at ih
        rw [ih, if_neg h1]
        simp

theorem dictKeys_dictSet_of_contains {α : Type} (m : StrMap α) (k : String)
    (v : α) (h : dictContains m k = true) :
    dictKeys (dictSet m k v) = dictKeys m := by
  rw [dictKeys_dictSet, if_pos h]

theorem mem_dictKeys_dictSet {α : Type} (m : StrMap α) (k k' : String) (v : α)
    (h : k' ∈ dictKeys m) : k' ∈ dictKeys (dictSet m k v) := by
  rw [dictKeys_dictSet]
  by_cases hc : dictContains m k
  · rw [if_pos hc] ; exact h
  · rw [if_neg hc] ; exact List.mem_append_left _ h

theorem mem_dictKeys_dictSet_self {α : Type} (m : StrMap α) (k : String)
    (v : α) : k ∈ dictKeys (dictSet m k v) := by
  rw [dictKeys_dictSet]
  by_cases hc : dictContains m k
  · rw [if_pos hc]
    exact (dictContains_iff_mem_keys m k).mp hc
  · rw [if_neg hc]
    simp

theorem dictGet_append {α : Type} (x y : StrMap α) (k : String) :
    dictGet (x ++ y) k =
      match dictGet x k with
      | some v => some v
      | none => dictGet y k := by
  induction x with
  | nil => simp [dictGet]
  | cons p rest ih =>
    obtain ⟨k0, v0⟩ := p
    by_cases h : k0 = k
    · simp [dictGet, h]
    · simpa [dictGet, h] using ih

theorem dictGet_map_override {α : Type} (a b : StrMap α) (k : String) :
    dictGet (a.map (fun p => (p.1, (dictGet b p.1).getD p.2))) k =
      (dictGet a k).map (fun v => (dictGet b k).getD v) := by
  induction a with
  | nil => simp [dictGet]
  | cons p rest ih =>
    obtain ⟨k0, v0⟩ := p
    by_cases h : k0 = k
    · subst h
      simp [dictGet]
    · simpa [dictGet, h] using ih

theorem dictGet_filter_keep {α : Type} (a b : StrMap α) (k : String) :
    dictGet (b.filter (fun p => !(dictContains a p.1))) k =
      if dictContains a k then none else dictGet b k := by
  induction b with
  | nil => simp [dictGet]
  | cons p rest ih =>
    obtain ⟨k0, v0⟩ := p
    by_cases hc : dictContains a k0
    · by_cases h : k0 = k
      · subst h
        simp [List.filter, hc, ih]
      · simp [List.filter, hc, dictGet, h, ih]
    · by_cases h : k0 = k
      · subst h
        simp [List.filter, hc, dictGet]
      · simp [List.filter, hc, dictGet, h, ih]

theorem dictGet_dictUnion {α : Type} (a b : StrMap α) (k : String) :
    dictGet (dictUnion a b) k =
      match dictGet b k with
      | some v => some v
      | none => dictGet a k := by
  have hc : dictContains a k = (dictGet a k).isSome := rfl
  rw [dictUnion, dictGet_append, dictGet_map_override, dictGet_filter_keep]
  rcases ha : dictGet a k with _ | va <;> rcases hb : dictGet b k with _ | vb <;>
    simp [hc, ha, hb]

theorem dictKeys_dictUnion_of_subset {α : Type} (a b : StrMap α)
    (h : ∀ k ∈ dictKeys b, k ∈ dictKeys a) :
    dictKeys (dictUnion a b) = dictKeys a := by
  have hnil : b.filter (fun p => !(dictContains a p.1)) = [] := by
    rw [List.filter_eq_nil_iff]
    intro p hp
    have : dictContains a p.1 = true := by
      rw [dictContains_iff_mem_keys]
      exact h p.1 (List.mem_map_of_mem Prod.fst hp)
    simp [this]
  rw [dictUnion, hnil, List.append_nil, dictKeys, List.map_map]
  apply List.map_congr_left
  intro p _
  rfl

/-! ## A generic fold invariant -/

theorem foldl_inv {α σ : Type _} (P : σ → Prop) (f : σ → α → σ) (l : List α)
    (s : σ) (h0 : P s) (h : ∀ s' a, a ∈ l → P s' → P (f s' a)) :
    P (l.foldl f s) := by
  induction l generalizing s with
  | nil => exact h0
  | cons a l ih =>
    exact ih (f s a) (h s a (by simp) h0)
      (fun s' b hb hP => h s' b (by simp [hb]) hP)

/-! ## Small-step equations and frame facts for the widget layer -/

theorem values_changed_succ (fuel : Nat) (st : AppState) (wname : String) :
    values_changed (fuel + 1) st wname = values_changed_body fuel st wname := rfl

theorem autocalculate_none (fuel : Nat) (acc : AppState) (aname : String)
    (h : acc.findWidget aname = none) : autocalculate fuel acc aname = acc := by
  unfold autocalculate
  rw [h]

theorem autocalculate_some (fuel : Nat) (acc : AppState) (aname : String)
    (cur : Widget) (h : acc.findWidget aname = some cur) :
    autocalculate fuel acc aname =
      (if cur.connected = true ∧ ¬ autocalc_value acc cur = cur.val
       then values_changed fuel (writeWidget acc aname (autocalc_value acc cur)) aname
       else writeWidget acc aname (autocalc_value acc cur)) := by
  unfold autocalculate
  rw [h]

theorem writeWidget_data (st : AppState) (n : String) (v : Val) :
    (writeWidget st n v).data = st.data := rfl

theorem writeWidget_data_empty (st : AppState) (n : String) (v : Val) :
    (writeWidget st n v).data_empty = st.data_empty := rfl

theorem writeWidget_update_dict (st : AppState) (n : String) (v : Val) :
    (writeWidget st n v).update_dict = st.update_dict := rfl

theorem writeWidget_db (st : AppState) (n : String) (v : Val) :
    (writeWidget st n v).db = st.db := rfl

theorem writeWidget_dbLocked (st : AppState) (n : String) (v : Val) :
    (writeWidget st n v).dbLocked = st.dbLocked := rfl

theorem writeWidget_msgs (st : AppState) (n : String) (v : Val) :
    (writeWidget st n v).msgs = st.msgs := rfl

theorem update_rom_single_data (st : AppState) (var : String) (val : Val) :
    (update_rom_single st var val).data = st.data := by
  unfold update_rom_single
  split <;> rfl

theorem update_rom_single_widgets (st : AppState) (var : String) (val : Val) :
    (update_rom_single st var val).widgets = st.widgets := by
  unfold update_rom_single
  split <;> rfl

theorem update_rom_single_data_empty (st : AppState) (var : String) (val : Val) :
    (update_rom_single st var val).data_empty = st.data_empty := by
  unfold update_rom_single
  split <;> rfl

theorem update_rom_single_update_dict (st : AppState) (var : String) (val : Val) :
    (update_rom_single st var val).update_dict = st.update_dict := by
  unfold update_rom_single
  split <;> rfl

theorem update_rom_single_dbLocked (st : AppState) (var : String) (val : Val) :
    (update_rom_single st var val).dbLocked = st.dbLocked := by
  unfold update_rom_single
  split <;> rfl

theorem update_rom_single_db_of_locked (st : AppState) (var : String)
    (val : Val) (h : st.dbLocked = true) :
    (update_rom_single st var val).db = st.db := by
  simp [update_rom_single, h]

theorem update_rom_single_msgs_of_locked (st : AppState) (var : String)
    (val : Val) (h : st.dbLocked = true) :
    (update_rom_single st var val).msgs = db_error_msg :: st.msgs := by
  simp [update_rom_single, h]

theorem update_rom_single_db_of_unlocked (st : AppState) (var : String)
    (val : Val) (h : st.dbLocked = false) :
    (update_rom_single st var val).db = dictSet st.db var val := by
  simp [update_rom_single, h]

theorem update_rom_single_msgs_of_unlocked (st : AppState) (var : String)
    (val : Val) (h : st.dbLocked = false) :
    (update_rom_single st var val).msgs = st.msgs := by
  simp [update_rom_single, h]

theorem update_rom_singleton (st : AppState) (var : String) (val : Val) :
    update_rom st [var] [val] = .ok (update_rom_single st var val) := by
  unfold update_rom update_rom_single
  simp [List.zip]

theorem sk_writeWidget (st : AppState) (n : String) (v : Val) :
    sk (writeWidget st n v) = sk st := by
  simp only [sk, writeWidget, List.map_map]
  apply List.map_congr_left
  intro w _
  by_cases h : w.name = n <;> simp [widgetSig, h, Function.comp]

theorem sk_update_rom_single (st : AppState) (var : String) (val : Val) :
    sk (update_rom_single st var val) = sk st := by
  unfold sk
  rw [update_rom_single_widgets]

theorem findWidget_of_widgets_eq (st st' : AppState)
    (h : st'.widgets = st.widgets) (m : String) :
    st'.findWidget m = st.findWidget m := by
  unfold AppState.findWidget
  rw [h]

theorem findWidget_name (st : AppState) (m : String) (w : Widget)
    (h : st.findWidget m = some w) : w.name = m := by
  have := List.find?_some h
  exact eq_of_beq this

theorem findWidget_mem (st : AppState) (m : String) (w : Widget)
    (h : st.findWidget m = some w) : w ∈ st.widgets :=
  List.mem_of_find?_eq_some h

theorem find?_map_write (l : List Widget) (n : String) (v : Val) :
    List.find? (fun w => w.name == n)
      (l.map (fun w => if w.name = n then { w with val := v } else w)) =
    (List.find? (fun w => w.name == n) l).map (fun w => { w with val := v }) := by
  induction l with
  | nil => rfl
  | cons w rest ih =>
    by_cases h : w.name = n
    · rw [List.map_cons, if_pos h, List.find?_cons_of_pos _ (by simp [h]),
        List.find?_cons_of_pos _ (by simp [h])]
      rfl
    · rw [List.map_cons, if_neg h, List.find?_cons_of_neg _ (by simp [h]),
        List.find?_cons_of_neg _ (by simp [h])]
      exact ih

theorem find?_map_write_ne (l : List Widget) (n : String) (v : Val)
    (m : String) (h : m ≠ n) :
    List.find? (fun w => w.name == m)
      (l.map (fun w => if w.name = n then { w with val := v } else w)) =
    List.find? (fun w => w.name == m) l := by
  induction l with
  | nil => rfl
  | cons w rest ih =>
    by_cases hw : w.name = m
    · have hn : ¬ w.name = n := fun he => h (hw ▸ he.symm ▸ rfl)
      rw [List.map_cons, if_neg hn, List.find?_cons_of_pos _ (by simp [hw]),
        List.find?_cons_of_pos _ (by simp [hw])]
    · by_cases hn : w.name = n
      · rw [List.map_cons, if_pos hn, List.find?_cons_of_neg _ (by simp [hw]),
          List.find?_cons_of_neg _ (by simp [hw])]
        exact ih
      · rw [List.map_cons, if_neg hn, List.find?_cons_of_neg _ (by simp [hw]),
          List.find?_cons_of_neg _ (by simp [hw])]
        exact ih

theorem findWidget_writeWidget_self (st : AppState) (n : String) (v : Val) :
    (writeWidget st n v).findWidget n =
      (st.findWidget n).map (fun w => { w with val := v }) :=
  find?_map_write st.widgets n v

theorem findWidget_writeWidget_ne (st : AppState) (n : String) (v : Val)
    (m : String) (h : m ≠ n) :
    (writeWidget st n v).findWidget m = st.findWidget m :=
  find?_map_write_ne st.widgets n v m h

theorem find?_name_unique : ∀ (l : List Widget),
    (l.map Widget.name).Nodup → ∀ (m : String) (w u : Widget),
    List.find? (fun x => x.name == m) l = some w → u ∈ l → u.name = m →
    u = w := by
  intro l
  induction l with
  | nil =>
    intro _ m w u _ hu _
    simp at hu
  | cons a rest ih =>
    intro hnd m w u hf hu hn
    rw [List.map_cons, List.nodup_cons] at hnd
    by_cases ha : a.name = m
    · rw [List.find?_cons_of_pos _ (by simp [ha])] at hf
      have haw : a = w := by injection hf
      rcases List.mem_cons.mp hu with hu1 | hu1
      · rw [hu1, haw]
      · exfalso
        apply hnd.1
        rw [ha, ← hn]
        exact List.mem_map_of_mem Widget.name hu1
    · rw [List.find?_cons_of_neg _ (by simp [ha])] at hf
      rcases List.mem_cons.mp hu with hu1 | hu1
      · exact absurd (hu1 ▸ hn) ha
      · exact ih hnd.2 m w u hf hu1 hn

theorem findWidget_unique (st : AppState) (hnd : (wnames st).Nodup)
    (m : String) (w u : Widget) (hf : st.findWidget m = some w)
    (hu : u ∈ st.widgets) (hn : u.name = m) : u = w :=
  find?_name_unique st.widgets hnd m w u hf hu hn

theorem autoinputsContain_isSome (a : Widget) (w : String)
    (h : autoinputsContain a w = true) : a.autoinputs.isSome = true := by
  cases hai : a.autoinputs with
  | none =>
    unfold autoinputsContain at h
    rw [hai] at h
    simp at h
  | some p => rfl

/-! ## Skeleton transfer lemmas -/

theorem mem_sig_transfer (st st' : AppState) (h : sk st' = sk st)
    (a : Widget) (ha : a ∈ st'.widgets) :
    ∃ b ∈ st.widgets, b.name = a.name ∧ b.autoinputs = a.autoinputs ∧
      b.connected = a.connected := by
  have hm : widgetSig a ∈ sk st' := List.mem_map_of_mem widgetSig ha
  rw [h] at hm
  obtain ⟨b, hb, hsig⟩ := List.mem_map.mp hm
  have h1 : b.name = a.name := congrArg Prod.fst hsig
  have h2 : b.autoinputs = a.autoinputs :=
    congrArg Prod.fst (congrArg Prod.snd hsig)
  have h3 : b.connected = a.connected :=
    congrArg Prod.snd (congrArg Prod.snd hsig)
  exact ⟨b, hb, h1, h2, h3⟩

theorem wnames_of_sk (st st' : AppState) (h : sk st' = sk st) :
    wnames st' = wnames st := by
  have e : ∀ s : AppState, wnames s = (sk s).map Prod.fst := by
    intro s
    simp only [wnames, sk, List.map_map]
    apply List.map_congr_left
    intro w _
    rfl
  rw [e, e, h]

theorem noAutoFeeds_of_sk (st st' : AppState) (h : sk st' = sk st)
    (hn : noAutoFeeds st) : noAutoFeeds st' := by
  intro a ha hsome b hb
  obtain ⟨a0, ha0, han, hai, _⟩ := mem_sig_transfer st st' h a ha
  obtain ⟨b0, hb0, _, hbi, _⟩ := mem_sig_transfer st st' h b hb
  have he : autoinputsContain b a.name = autoinputsContain b0 a0.name := by
    simp only [autoinputsContain, hbi, han]
  rw [he]
  exact hn a0 ha0 (by rw [hai] ; exact hsome) b0 hb0

theorem autoVarsDistinctFrom_of_sk (st st' : AppState) (h : sk st' = sk st)
    (dn : String) (hn : autoVarsDistinctFrom st dn) :
    autoVarsDistinctFrom st' dn := by
  intro a ha hsome hne
  obtain ⟨a0, ha0, han, hai, _⟩ := mem_sig_transfer st st' h a ha
  rw [← han]
  exact hn a0 ha0 (by rw [hai] ; exact hsome) (by rw [han] ; exact hne)

theorem exists_auto_of_sk (st st' : AppState) (h : sk st' = sk st)
    (aname : String)
    (hex : ∃ a ∈ st.widgets, a.name = aname ∧ a.autoinputs.isSome = true) :
    ∃ a ∈ st'.widgets, a.name = aname ∧ a.autoinputs.isSome = true := by
  obtain ⟨a, ha, hn, hs⟩ := hex
  obtain ⟨b, hb, hbn, hbi, _⟩ := mem_sig_transfer st' st h.symm a ha
  exact ⟨b, hb, by rw [hbn, hn], by rw [hbi] ; exact hs⟩

/-! ## Lemmas about the final `top_update` phase -/

theorem sk_top_update (st1 : AppState) (wname : String) :
    sk (top_update st1 wname) = sk st1 := by
  unfold top_update
  by_cases h : st1.update_dict
  · rw [if_pos h]
    cases hf : st1.findWidget wname with
    | none => simp only [hf]
    | some w =>
      simp only [hf]
      rw [sk_update_rom_single]
      rfl
  · rw [if_neg h]

theorem top_update_update_dict (st1 : AppState) (wname : String) :
    (top_update st1 wname).update_dict = st1.update_dict := by
  unfold top_update
  by_cases h : st1.update_dict
  · rw [if_pos h]
    cases hf : st1.findWidget wname with
    | none => simp only [hf]
    | some w =>
      simp only [hf]
      rw [update_rom_single_update_dict]
  · rw [if_neg h]


theorem top_update_data_empty (st1 : AppState) (wname : String) :
    (top_update st1 wname).data_empty = st1.data_empty := by
  unfold top_update
  by_cases h : st1.update_dict
  · rw [if_pos h]
    cases hf : st1.findWidget wname with
    | none => simp only [hf]
    | some w =>
      simp only [hf]
      rw [update_rom_single_data_empty]
  · rw [if_neg h]

theorem top_update_dbLocked (st1 : AppState) (wname : String) :
    (top_update st1 wname).dbLocked = st1.dbLocked := by
  unfold top_update
  by_cases h : st1.update_dict
  · rw [if_pos h]
    cases hf : st1.findWidget wname with
    | none => simp only [hf]
    | some w =>
      simp only [hf]
      rw [update_rom_single_dbLocked]
  · rw [if_neg h]

theorem top_update_widgets (st1 : AppState) (wname : String) :
    (top_update st1 wname).widgets = st1.widgets := by
  unfold top_update
  by_cases h : st1.update_dict
  · rw [if_pos h]
    cases hf : st1.findWidget wname with
    | none => simp only [hf]
    | some w =>
      simp only [hf]
      rw [update_rom_single_widgets]
  · rw [if_neg h]

theorem top_update_db_of_locked (st1 : AppState) (wname : String)
    (h : st1.dbLocked = true) : (top_update st1 wname).db = st1.db := by
  unfold top_update
  by_cases hud : st1.update_dict
  · rw [if_pos hud]
    cases hf : st1.findWidget wname with
    | none => simp only [hf]
    | some w =>
      simp only [hf]
      have h2 : ({ st1 with
          data := dictSet st1.data (widget_to_var wname) w.val } : AppState).dbLocked
          = true := h
      rw [update_rom_single_db_of_locked _ _ _ h2]
  · rw [if_neg hud]

theorem top_update_of_guard_off (st1 : AppState) (wname : String)
    (h : st1.update_dict = false) : top_update st1 wname = st1 := by
  unfold top_update
  rw [h]
  simp

theorem top_update_data_of_found (st1 : AppState) (wname : String)
    (cw : Widget) (hud : st1.update_dict = true)
    (hf : st1.findWidget wname = some cw) :
    (top_update st1 wname).data =
      dictSet st1.data (widget_to_var wname) cw.val := by
  unfold top_update
  rw [if_pos hud]
  simp only [hf]
  rw [update_rom_single_data]

theorem top_update_msgs_of_found_locked (st1 : AppState) (wname : String)
    (cw : Widget) (hud : st1.update_dict = true)
    (hf : st1.findWidget wname = some cw) (hl : st1.dbLocked = true) :
    (top_update st1 wname).msgs = db_error_msg :: st1.msgs := by
  unfold top_update
  rw [if_pos hud]
  simp only [hf]
  have h2 : ({ st1 with
      data := dictSet st1.data (widget_to_var wname) cw.val } : AppState).dbLocked
      = true := hl
  rw [update_rom_single_msgs_of_locked _ _ _ h2]

theorem top_update_data_frame (st1 : AppState) (wname : String) (k : String)
    (hk : widget_to_var wname ≠ k) :
    dictGet (top_update st1 wname).data k = dictGet st1.data k := by
  unfold top_update
  by_cases hud : st1.update_dict
  · rw [if_pos hud]
    cases hf : st1.findWidget wname with
    | none => simp only [hf]
    | some w =>
      simp only [hf]
      rw [update_rom_single_data]
      exact dictGet_dictSet_ne _ _ _ _ hk
  · rw [if_neg hud]

/-! ## Frame and preservation lemmas for `values_changed` -/

theorem vc_preserves (fuel : Nat) : ∀ (st : AppState) (w : String),
    sk (values_changed fuel st w) = sk st ∧
    (values_changed fuel st w).update_dict = st.update_dict ∧
    (values_changed fuel st w).data_empty = st.data_empty ∧
    (values_changed fuel st w).dbLocked = st.dbLocked := by
  induction fuel with
  | zero =>
    intro st w
    exact ⟨rfl, rfl, rfl, rfl⟩
  | succ fuel ih =>
    intro st w
    rw [values_changed_succ]
    unfold values_changed_body
    have hstep : ∀ (acc : AppState) (a : Widget),
        a ∈ st.widgets.filter (fun a => autoinputsContain a w) →
        (sk acc = sk st ∧ acc.update_dict = st.update_dict ∧
          acc.data_empty = st.data_empty ∧ acc.dbLocked = st.dbLocked) →
        (sk (autocalculate fuel acc a.name) = sk st ∧
          (autocalculate fuel acc a.name).update_dict = st.update_dict ∧
          (autocalculate fuel acc a.name).data_empty = st.data_empty ∧
          (autocalculate fuel acc a.name).dbLocked = st.dbLocked) := by
      intro acc a _ hP
      cases hfw : acc.findWidget a.name with
      | none =>
        rw [autocalculate_none fuel acc a.name hfw]
        exact hP
      | some cur =>
        rw [autocalculate_some fuel acc a.name cur hfw]
        by_cases hsig : cur.connected = true ∧ ¬ autocalc_value acc cur = cur.val
        · rw [if_pos hsig]
          obtain ⟨h1, h2, h3, h4⟩ :=
            ih (writeWidget acc a.name (autocalc_value acc cur)) a.name
          exact ⟨by rw [h1, sk_writeWidget, hP.1],
            by rw [h2, writeWidget_update_dict, hP.2.1],
            by rw [h3, writeWidget_data_empty, hP.2.2.1],
            by rw [h4, writeWidget_dbLocked, hP.2.2.2]⟩
        · rw [if_neg hsig]
          exact ⟨by rw [sk_writeWidget, hP.1],
            by rw [writeWidget_update_dict, hP.2.1],
            by rw [writeWidget_data_empty, hP.2.2.1],
            by rw [writeWidget_dbLocked, hP.2.2.2]⟩
    have hfold := foldl_inv
      (fun acc => sk acc = sk st ∧ acc.update_dict = st.update_dict ∧
        acc.data_empty = st.data_empty ∧ acc.dbLocked = st.dbLocked)
      (fun acc a => autocalculate fuel acc a.name)
      (st.widgets.filter (fun a => autoinputsContain a w)) st
      ⟨rfl, rfl, rfl, rfl⟩ hstep
    exact ⟨by rw [sk_top_update, hfold.1],
      by rw [top_update_update_dict, hfold.2.1],
      by rw [top_update_data_empty, hfold.2.2.1],
      by rw [top_update_dbLocked, hfold.2.2.2]⟩

theorem vc_guard_off (fuel : Nat) : ∀ (st : AppState) (w : String),
    st.update_dict = false →
    (values_changed fuel st w).data = st.data ∧
    (values_changed fuel st w).db = st.db ∧
    (values_changed fuel st w).msgs = st.msgs := by
  induction fuel with
  | zero =>
    intro st w _
    exact ⟨rfl, rfl, rfl⟩
  | succ fuel ih =>
    intro st w hud
    rw [values_changed_succ]
    unfold values_changed_body
    have hstep : ∀ (acc : AppState) (a : Widget),
        a ∈ st.widgets.filter (fun a => autoinputsContain a w) →
        (acc.data = st.data ∧ acc.db = st.db ∧ acc.msgs = st.msgs ∧
          acc.update_dict = false) →
        ((autocalculate fuel acc a.name).data = st.data ∧
          (autocalculate fuel acc a.name).db = st.db ∧
          (autocalculate fuel acc a.name).msgs = st.msgs ∧
          (autocalculate fuel acc a.name).update_dict = false) := by
      intro acc a _ hP
      cases hfw : acc.findWidget a.name with
      | none =>
        rw [autocalculate_none fuel acc a.name hfw]
        exact hP
      | some cur =>
        rw [autocalculate_some fuel acc a.name cur hfw]
        by_cases hsig : cur.connected = true ∧ ¬ autocalc_value acc cur = cur.val
        · rw [if_pos hsig]
          have hud1 : (writeWidget acc a.name (autocalc_value acc cur)).update_dict
              = false := by
            rw [writeWidget_update_dict]
            exact hP.2.2.2
          obtain ⟨h1, h2, h3⟩ :=
            ih (writeWidget acc a.name (autocalc_value acc cur)) a.name hud1
          have h4 := (vc_preserves fuel
            (writeWidget acc a.name (autocalc_value acc cur)) a.name).2.1
          exact ⟨by rw [h1, writeWidget_data, hP.1],
            by rw [h2, writeWidget_db, hP.2.1],
            by rw [h3, writeWidget_msgs, hP.2.2.1],
            by rw [h4, writeWidget_update_dict, hP.2.2.2]⟩
        · rw [if_neg hsig]
          exact ⟨by rw [writeWidget_data, hP.1],
            by rw [writeWidget_db, hP.2.1],
            by rw [writeWidget_msgs, hP.2.2.1],
            by rw [writeWidget_update_dict, hP.2.2.2]⟩
    have hfold := foldl_inv
      (fun acc => acc.data = st.data ∧ acc.db = st.db ∧ acc.msgs = st.msgs ∧
        acc.update_dict = false)
      (fun acc a => autocalculate fuel acc a.name)
      (st.widgets.filter (fun a => autoinputsContain a w)) st
      ⟨rfl, rfl, rfl, hud⟩ hstep
    rw [top_update_of_guard_off _ _ hfold.2.2.2]
    exact ⟨hfold.1, hfold.2.1, hfold.2.2.1⟩

theorem vc_db_locked (fuel : Nat) : ∀ (st : AppState) (w : String),
    st.dbLocked = true → (values_changed fuel st w).db = st.db := by
  induction fuel with
  | zero =>
    intro st w _
    rfl
  | succ fuel ih =>
    intro st w hl
    rw [values_changed_succ]
    unfold values_changed_body
    have hstep : ∀ (acc : AppState) (a : Widget),
        a ∈ st.widgets.filter (fun a => autoinputsContain a w) →
        (acc.db = st.db ∧ acc.dbLocked = true) →
        ((autocalculate fuel acc a.name).db = st.db ∧
          (autocalculate fuel acc a.name).dbLocked = true) := by
      intro acc a _ hP
      cases hfw : acc.findWidget a.name with
      | none =>
        rw [autocalculate_none fuel acc a.name hfw]
        exact hP
      | some cur =>
        rw [autocalculate_some fuel acc a.name cur hfw]
        by_cases hsig : cur.connected = true ∧ ¬ autocalc_value acc cur = cur.val
        · rw [if_pos hsig]
          have hl1 : (writeWidget acc a.name (autocalc_value acc cur)).dbLocked
              = true := by
            rw [writeWidget_dbLocked]
            exact hP.2
          have h1 := ih (writeWidget acc a.name (autocalc_value acc cur)) a.name hl1
          have h2 := (vc_preserves fuel
            (writeWidget acc a.name (autocalc_value acc cur)) a.name).2.2.2
          exact ⟨by rw [h1, writeWidget_db, hP.1],
            by rw [h2, writeWidget_dbLocked, hP.2]⟩
        · rw [if_neg hsig]
          exact ⟨by rw [writeWidget_db, hP.1],
            by rw [writeWidget_dbLocked, hP.2]⟩
    have hfold := foldl_inv
      (fun acc => acc.db = st.db ∧ acc.dbLocked = true)
      (fun acc a => autocalculate fuel acc a.name)
      (st.widgets.filter (fun a => autoinputsContain a w)) st
      ⟨rfl, hl⟩ hstep
    rw [top_update_db_of_locked _ _ hfold.2, hfold.1]

theorem vc_widget_frame (fuel : Nat) : ∀ (st : AppState) (w f : String)
    (wf : Widget), (wnames st).Nodup → st.findWidget f = some wf →
    wf.autoinputs = none →
    (values_changed fuel st w).findWidget f = some wf := by
  induction fuel with
  | zero =>
    intro st w f wf _ hf _
    exact hf
  | succ fuel ih =>
    intro st w f wf hnd hf hfi
    rw [values_changed_succ]
    unfold values_changed_body
    have hstep : ∀ (acc : AppState) (a : Widget),
        a ∈ st.widgets.filter (fun a => autoinputsContain a w) →
        (sk acc = sk st ∧ acc.findWidget f = some wf) →
        (sk (autocalculate fuel acc a.name) = sk st ∧
          (autocalculate fuel acc a.name).findWidget f = some wf) := by
      intro acc a hmem hP
      have hmem2 := List.mem_filter.mp hmem
      have hsome : a.autoinputs.isSome = true :=
        autoinputsContain_isSome a w hmem2.2
      have hne : a.name ≠ f := by
        intro he
        have := findWidget_unique st hnd f wf a hf hmem2.1 he
        rw [this, hfi] at hsome
        simp at hsome
      cases hfw : acc.findWidget a.name with
      | none =>
        rw [autocalculate_none fuel acc a.name hfw]
        exact hP
      | some cur =>
        rw [autocalculate_some fuel acc a.name cur hfw]
        have hwfr : (writeWidget acc a.name (autocalc_value acc cur)).findWidget f
            = some wf := by
          rw [findWidget_writeWidget_ne _ _ _ _ (Ne.symm hne)]
          exact hP.2
        have hsk1 : sk (writeWidget acc a.name (autocalc_value acc cur)) = sk st := by
          rw [sk_writeWidget]
          exact hP.1
        by_cases hsig : cur.connected = true ∧ ¬ autocalc_value acc cur = cur.val
        · rw [if_pos hsig]
          have hnd1 : (wnames (writeWidget acc a.name (autocalc_value acc cur))).Nodup := by
            rw [wnames_of_sk st _ hsk1]
            exact hnd
          have h1 := ih (writeWidget acc a.name (autocalc_value acc cur)) a.name
            f wf hnd1 hwfr hfi
          have h2 := (vc_preserves fuel
            (writeWidget acc a.name (autocalc_value acc cur)) a.name).1
          exact ⟨by rw [h2, hsk1], h1⟩
        · rw [if_neg hsig]
          exact ⟨hsk1, hwfr⟩
    have hfold := foldl_inv
      (fun acc => sk acc = sk st ∧ acc.findWidget f = some wf)
      (fun acc a => autocalculate fuel acc a.name)
      (st.widgets.filter (fun a => autoinputsContain a w)) st
      ⟨rfl, hf⟩ hstep
    rw [findWidget_of_widgets_eq _ _ (top_update_widgets _ _) f]
    exact hfold.2

theorem top_update_data_of_none (st1 : AppState) (wname : String)
    (hf : st1.findWidget wname = none) :
    (top_update st1 wname).data = st1.data := by
  unfold top_update
  by_cases hud : st1.update_dict
  · rw [if_pos hud]
    simp only [hf]
  · rw [if_neg hud]

theorem vc_keys (fuel : Nat) : ∀ (st : AppState) (w : String),
    (∀ u ∈ st.widgets, dictContains st.data (widget_to_var u.name) = true) →
    dictKeys (values_changed fuel st w).data = dictKeys st.data := by
  induction fuel with
  | zero =>
    intro st w _
    rfl
  | succ fuel ih =>
    intro st w hreg
    rw [values_changed_succ]
    unfold values_changed_body
    have hstep : ∀ (acc : AppState) (a : Widget),
        a ∈ st.widgets.filter (fun a => autoinputsContain a w) →
        (dictKeys acc.data = dictKeys st.data ∧ sk acc = sk st) →
        (dictKeys (autocalculate fuel acc a.name).data = dictKeys st.data ∧
          sk (autocalculate fuel acc a.name) = sk st) := by
      intro acc a _ hP
      cases hfw : acc.findWidget a.name with
      | none =>
        rw [autocalculate_none fuel acc a.name hfw]
        exact hP
      | some cur =>
        rw [autocalculate_some fuel acc a.name cur hfw]
        have hsk1 : sk (writeWidget acc a.name (autocalc_value acc cur)) = sk st := by
          rw [sk_writeWidget]
          exact hP.2
        by_cases hsig : cur.connected = true ∧ ¬ autocalc_value acc cur = cur.val
        · rw [if_pos hsig]
          have hreg1 : ∀ u ∈ (writeWidget acc a.name (autocalc_value acc cur)).widgets,
              dictContains (writeWidget acc a.name (autocalc_value acc cur)).data
                (widget_to_var u.name) = true := by
            intro u hu
            obtain ⟨u0, hu0, hn0, _, _⟩ := mem_sig_transfer st _ hsk1 u hu
            have hc0 := hreg u0 hu0
            rw [writeWidget_data]
            rw [dictContains_iff_mem_keys] at hc0 ⊢
            rw [hP.1, ← hn0]
            exact hc0
          have h1 := ih (writeWidget acc a.name (autocalc_value acc cur)) a.name hreg1
          have h2 := (vc_preserves fuel
            (writeWidget acc a.name (autocalc_value acc cur)) a.name).1
          exact ⟨by rw [h1, writeWidget_data, hP.1], by rw [h2, hsk1]⟩
        · rw [if_neg hsig]
          exact ⟨by rw [writeWidget_data, hP.1], hsk1⟩
    have hfold := foldl_inv
      (fun acc => dictKeys acc.data = dictKeys st.data ∧ sk acc = sk st)
      (fun acc a => autocalculate fuel acc a.name)
      (st.widgets.filter (fun a => autoinputsContain a w)) st ⟨rfl, rfl⟩ hstep
    set st1 := (st.widgets.filter (fun a => autoinputsContain a w)).foldl
      (fun acc a => autocalculate fuel acc a.name) st with hst1
    cases hw : st1.findWidget w with
    | none =>
      rw [top_update_data_of_none st1 w hw]
      exact hfold.1
    | some cw =>
      by_cases hud : st1.update_dict = true
      · have hcont : dictContains st1.data (widget_to_var w) = true := by
          have hcw := findWidget_mem st1 w cw hw
          obtain ⟨u0, hu0, hn0, _, _⟩ := mem_sig_transfer st st1 hfold.2 cw hcw
          have hc0 := hreg u0 hu0
          have hn := findWidget_name st1 w cw hw
          rw [dictContains_iff_mem_keys] at hc0 ⊢
          rw [hfold.1, ← hn, ← hn0]
          exact hc0
        rw [top_update_data_of_found st1 w cw hud hw,
          dictKeys_dictSet_of_contains _ _ _ hcont]
        exact hfold.1
      · have hud' : st1.update_dict = false := by
          cases hb : st1.update_dict
          · rfl
          · exact absurd hb hud
        rw [top_update_of_guard_off st1 w hud']
        exact hfold.1

theorem vc_lonely (fuel : Nat) (st : AppState) (aname : String) (cur : Widget)
    (hempty : st.widgets.filter (fun b => autoinputsContain b aname) = [])
    (hud : st.update_dict = true)
    (hfw : st.findWidget aname = some cur) :
    values_changed (fuel + 1) st aname =
      update_rom_single
        { st with data := dictSet st.data (widget_to_var aname) cur.val }
        (widget_to_var aname) cur.val := by
  rw [values_changed_succ]
  unfold values_changed_body
  rw [hempty, List.foldl_nil]
  unfold top_update
  rw [if_pos hud]
  simp only [hfw]

theorem autocalculate_effects (fuel : Nat) (st0 acc : AppState) (aname : String)
    (hsk : sk acc = sk st0)
    (hnol : noAutoFeeds st0)
    (hex : ∃ a ∈ st0.widgets, a.name = aname ∧ a.autoinputs.isSome = true)
    (hud : acc.update_dict = true) :
    sk (autocalculate (fuel + 1) acc aname) = sk st0 ∧
    (autocalculate (fuel + 1) acc aname).update_dict = true ∧
    (∀ k, widget_to_var aname ≠ k →
      dictGet (autocalculate (fuel + 1) acc aname).data k = dictGet acc.data k) ∧
    (∀ (m : String) (wm : Widget), m ≠ aname → acc.findWidget m = some wm →
      (autocalculate (fuel + 1) acc aname).findWidget m = some wm) := by
  cases hfw : acc.findWidget aname with
  | none =>
    rw [autocalculate_none (fuel + 1) acc aname hfw]
    exact ⟨hsk, hud, fun k _ => rfl, fun m wm _ h => h⟩
  | some cur =>
    rw [autocalculate_some (fuel + 1) acc aname cur hfw]
    by_cases hsig : cur.connected = true ∧ ¬ autocalc_value acc cur = cur.val
    · rw [if_pos hsig]
      have hsk1 : sk (writeWidget acc aname (autocalc_value acc cur)) = sk st0 := by
        rw [sk_writeWidget]
        exact hsk
      have hud1 : (writeWidget acc aname (autocalc_value acc cur)).update_dict
          = true := by
        rw [writeWidget_update_dict]
        exact hud
      have hempty : (writeWidget acc aname (autocalc_value acc cur)).widgets.filter
          (fun b => autoinputsContain b aname) = [] := by
        rw [List.filter_eq_nil_iff]
        intro b hb
        have hnol1 := noAutoFeeds_of_sk st0 _ hsk1 hnol
        obtain ⟨a1, ha1, han1, hsome1⟩ := exists_auto_of_sk st0 _ hsk1 aname hex
        have hc := hnol1 a1 ha1 hsome1 b hb
        rw [han1] at hc
        simp [hc]
      have hfw1 : (writeWidget acc aname (autocalc_value acc cur)).findWidget aname
          = some { cur with val := autocalc_value acc cur } := by
        rw [findWidget_writeWidget_self, hfw]
        rfl
      rw [vc_lonely fuel _ aname _ hempty hud1 hfw1]
      refine ⟨?_, ?_, ?_, ?_⟩
      · rw [sk_update_rom_single]
        exact hsk1
      · rw [update_rom_single_update_dict]
        exact hud1
      · intro k hk
        rw [update_rom_single_data]
        exact dictGet_dictSet_ne
          (writeWidget acc aname (autocalc_value acc cur)).data
          (widget_to_var aname) k (autocalc_value acc cur) hk
      · intro m wm hm hwm
        have hfind : (update_rom_single
            { writeWidget acc aname (autocalc_value acc cur) with
              data := dictSet (writeWidget acc aname (autocalc_value acc cur)).data
                (widget_to_var aname)
                ({ cur with val := autocalc_value acc cur } : Widget).val }
            (widget_to_var aname)
            ({ cur with val := autocalc_value acc cur } : Widget).val).findWidget m =
            (writeWidget acc aname (autocalc_value acc cur)).findWidget m := by
          apply findWidget_of_widgets_eq
          rw [update_rom_single_widgets]
        rw [hfind, findWidget_writeWidget_ne _ _ _ _ hm]
        exact hwm
    · rw [if_neg hsig]
      refine ⟨by rw [sk_writeWidget] ; exact hsk,
        by rw [writeWidget_update_dict] ; exact hud,
        fun k _ => rfl, ?_⟩
      intro m wm hm hwm
      rw [findWidget_writeWidget_ne _ _ _ _ hm]
      exact hwm

/-! ## Lemmas about `widget_setVal`, `restore_forms`, `read_forms` -/

theorem widget_setVal_none (fuel : Nat) (st : AppState) (wname : String)
    (v : Val) (h : st.findWidget wname = none) :
    widget_setVal fuel st wname v = st := by
  unfold widget_setVal
  rw [h]

theorem widget_setVal_some (fuel : Nat) (st : AppState) (wname : String)
    (v : Val) (cur : Widget) (h : st.findWidget wname = some cur) :
    widget_setVal fuel st wname v =
      (if cur.connected = true ∧ ¬ v = cur.val
       then values_changed fuel (writeWidget st wname v) wname
       else writeWidget st wname v) := by
  unfold widget_setVal
  rw [h]

theorem foldl_data_only : ∀ (l : List Widget) (s : AppState),
    (l.foldl (fun acc w =>
      { acc with data := dictSet acc.data (widget_to_var w.name) w.val }) s) =
    { s with data := (l.foldl
      (fun d w => dictSet d (widget_to_var w.name) w.val) s.data) } := by
  intro l
  induction l with
  | nil =>
    intro s
    rfl
  | cons w rest ih =>
    intro s
    rw [List.foldl_cons, List.foldl_cons, ih]

theorem read_forms_eq (st : AppState) :
    read_forms st = { st with data := (st.widgets.foldl
      (fun d w => dictSet d (widget_to_var w.name) w.val) st.data) } :=
  foldl_data_only st.widgets st

theorem restore_step_none (fuel : Nat) (acc : AppState) (w : Widget)
    (h : dictGet acc.data (widget_to_var w.name) = none) :
    restore_step fuel acc w = acc := by
  unfold restore_step
  rw [h]

theorem restore_step_some (fuel : Nat) (acc : AppState) (w : Widget) (v : Val)
    (h : dictGet acc.data (widget_to_var w.name) = some v) :
    restore_step fuel acc w = widget_setVal fuel acc w.name v := by
  unfold restore_step
  rw [h]

theorem restore_forms_eq (fuel : Nat) (st : AppState) :
    restore_forms fuel st =
      { (({ st with save_to_tmp := false, update_dict := false } : AppState).widgets.foldl
          (restore_step fuel)
          { st with save_to_tmp := false, update_dict := false }) with
        save_to_tmp := true, update_dict := true } := rfl

theorem restore_forms_frame (fuel : Nat) (st : AppState) :
    (restore_forms fuel st).data = st.data ∧
    (restore_forms fuel st).db = st.db ∧
    (restore_forms fuel st).msgs = st.msgs ∧
    (restore_forms fuel st).data_empty = st.data_empty ∧
    (restore_forms fuel st).update_dict = true ∧
    sk (restore_forms fuel st) = sk st := by
  have hstep : ∀ (acc : AppState) (w : Widget),
      w ∈ ({ st with save_to_tmp := false, update_dict := false } : AppState).widgets →
      (acc.data = st.data ∧ acc.db = st.db ∧ acc.msgs = st.msgs ∧
        acc.data_empty = st.data_empty ∧ acc.update_dict = false ∧ sk acc = sk st) →
      ((restore_step fuel acc w).data = st.data ∧
        (restore_step fuel acc w).db = st.db ∧
        (restore_step fuel acc w).msgs = st.msgs ∧
        (restore_step fuel acc w).data_empty = st.data_empty ∧
        (restore_step fuel acc w).update_dict = false ∧
        sk (restore_step fuel acc w) = sk st) := by
    intro acc w _ hP
    cases hgd : dictGet acc.data (widget_to_var w.name) with
    | none =>
      rw [restore_step_none fuel acc w hgd]
      exact hP
    | some v =>
      rw [restore_step_some fuel acc w v hgd]
      cases hfw : acc.findWidget w.name with
      | none =>
        rw [widget_setVal_none fuel acc w.name v hfw]
        exact hP
      | some cur =>
        rw [widget_setVal_some fuel acc w.name v cur hfw]
        by_cases hsig : cur.connected = true ∧ ¬ v = cur.val
        · rw [if_pos hsig]
          have hud1 : (writeWidget acc w.name v).update_dict = false := by
            rw [writeWidget_update_dict]
            exact hP.2.2.2.2.1
          obtain ⟨g1, g2, g3⟩ := vc_guard_off fuel (writeWidget acc w.name v) w.name hud1
          obtain ⟨p1, p2, p3, _⟩ := vc_preserves fuel (writeWidget acc w.name v) w.name
          exact ⟨by rw [g1, writeWidget_data, hP.1],
            by rw [g2, writeWidget_db, hP.2.1],
            by rw [g3, writeWidget_msgs, hP.2.2.1],
            by rw [p3, writeWidget_data_empty, hP.2.2.2.1],
            by rw [p2, writeWidget_update_dict, hP.2.2.2.2.1],
            by rw [p1, sk_writeWidget, hP.2.2.2.2.2]⟩
        · rw [if_neg hsig]
          exact ⟨by rw [writeWidget_data, hP.1],
            by rw [writeWidget_db, hP.2.1],
            by rw [writeWidget_msgs, hP.2.2.1],
            by rw [writeWidget_data_empty, hP.2.2.2.1],
            by rw [writeWidget_update_dict, hP.2.2.2.2.1],
            by rw [sk_writeWidget, hP.2.2.2.2.2]⟩
  have hfold := foldl_inv
    (fun acc => acc.data = st.data ∧ acc.db = st.db ∧ acc.msgs = st.msgs ∧
      acc.data_empty = st.data_empty ∧ acc.update_dict = false ∧ sk acc = sk st)
    (restore_step fuel)
    ({ st with save_to_tmp := false, update_dict := false } : AppState).widgets
    { st with save_to_tmp := false, update_dict := false }
    ⟨rfl, rfl, rfl, rfl, rfl, rfl⟩ hstep
  rw [restore_forms_eq]
  exact ⟨hfold.1, hfold.2.1, hfold.2.2.1, hfold.2.2.2.1, rfl, hfold.2.2.2.2.2⟩

/-! ## Reading a database row (`_read_data`) -/

theorem dictGet_read_row_absent (db : StrMap Val) : ∀ (vars : List String)
    (f : String), f ∉ vars →
    dictGet (vars.filterMap (fun v =>
      match dictGet db v with
      | some q => if q = Val.null then none else some (v, q)
      | none => none)) f = none := by
  intro vars
  induction vars with
  | nil =>
    intro f _
    rfl
  | cons v rest ih =>
    intro f hf
    have hvf : v ≠ f := fun he => hf (by simp [he])
    have hfr : f ∉ rest := fun he => hf (by simp [he])
    cases hdb : dictGet db v with
    | none =>
      simp only [List.filterMap_cons, hdb]
      exact ih f hfr
    | some q =>
      by_cases hq : q = Val.null
      · simp only [List.filterMap_cons, hdb, if_pos hq]
        exact ih f hfr
      · simp only [List.filterMap_cons, hdb, if_neg hq]
        simp only [dictGet, if_neg hvf]
        exact ih f hfr

theorem dictGet_read_row (db : StrMap Val) : ∀ (vars : List String),
    vars.Nodup → ∀ f ∈ vars,
    dictGet (vars.filterMap (fun v =>
      match dictGet db v with
      | some q => if q = Val.null then none else some (v, q)
      | none => none)) f =
      (match dictGet db f with
       | some q => if q = Val.null then none else some q
       | none => none) := by
  intro vars
  induction vars with
  | nil =>
    intro _ f hf
    simp at hf
  | cons v rest ih =>
    intro hnd f hf
    rw [List.nodup_cons] at hnd
    by_cases hvf : v = f
    · subst hvf
      cases hdb : dictGet db v with
      | none =>
        simp only [List.filterMap_cons, hdb]
        exact dictGet_read_row_absent db rest v hnd.1
      | some q =>
        by_cases hq : q = Val.null
        · simp only [List.filterMap_cons, hdb, if_pos hq]
          rw [dictGet_read_row_absent db rest v hnd.1]
        · simp only [List.filterMap_cons, hdb, if_neg hq]
          simp [dictGet]
    · have hfr : f ∈ rest := by
        rcases List.mem_cons.mp hf with h1 | h1
        · exact absurd h1.symm hvf
        · exact h1
      cases hdb : dictGet db v with
      | none =>
        simp only [List.filterMap_cons, hdb]
        exact ih hnd.2 f hfr
      | some q =>
        by_cases hq : q = Val.null
        · simp only [List.filterMap_cons, hdb, if_pos hq]
          exact ih hnd.2 f hfr
        · simp only [List.filterMap_cons, hdb, if_neg hq]
          simp only [dictGet, if_neg hvf]
          exact ih hnd.2 f hfr

theorem mem_keys_read_row (db : StrMap Val) (vars : List String) (f : String)
    (h : f ∈ dictKeys (vars.filterMap (fun v =>
      match dictGet db v with
      | some q => if q = Val.null then none else some (v, q)
      | none => none))) : f ∈ vars := by
  unfold dictKeys at h
  obtain ⟨p, hp, hpf⟩ := List.mem_map.mp h
  obtain ⟨v, hv, hvp⟩ := List.mem_filterMap.mp hp
  cases hdb : dictGet db v with
  | none =>
    simp only [hdb] at hvp
    exact Option.noConfusion hvp
  | some q =>
    simp only [hdb] at hvp
    by_cases hq : q = Val.null
    · simp only [if_pos hq] at hvp
      exact Option.noConfusion hvp
    · simp only [if_neg hq] at hvp
      obtain rfl : (v, q) = p := by injection hvp
      rw [← hpf]
      exact hv

theorem dictGet_read_row_eq (db : StrMap Val) (vars : List String)
    (hnd : vars.Nodup) (f : String) (hf : f ∈ vars) :
    dictGet (read_row db vars) f =
      (match dictGet db f with
       | some q => if q = Val.null then none else some q
       | none => none) := by
  unfold read_row
  exact dictGet_read_row db vars hnd f hf

theorem mem_keys_read_row_eq (db : StrMap Val) (vars : List String)
    (f : String) (h : f ∈ dictKeys (read_row db vars)) : f ∈ vars := by
  unfold read_row at h
  exact mem_keys_read_row db vars f h

/-! ## Key-set invariant lemmas -/

theorem mem_keys_foldl_dictSet : ∀ (l : List Widget) (d : StrMap Val)
    (k : String), k ∈ dictKeys d →
    k ∈ dictKeys (l.foldl
      (fun d w => dictSet d (widget_to_var w.name) w.val) d) := by
  intro l
  induction l with
  | nil =>
    intro d k h
    exact h
  | cons w rest ih =>
    intro d k h
    rw [List.foldl_cons]
    exact ih _ k (mem_dictKeys_dictSet d (widget_to_var w.name) k w.val h)

theorem contains_foldl_dictSet : ∀ (l : List Widget) (d : StrMap Val)
    (w : Widget), w ∈ l →
    dictContains (l.foldl
      (fun d x => dictSet d (widget_to_var x.name) x.val) d)
      (widget_to_var w.name) = true := by
  intro l
  induction l with
  | nil =>
    intro d w h
    simp at h
  | cons x rest ih =>
    intro d w h
    rw [List.foldl_cons]
    rcases List.mem_cons.mp h with h1 | h1
    · subst h1
      rw [dictContains_iff_mem_keys]
      exact mem_keys_foldl_dictSet rest _ _
        (mem_dictKeys_dictSet_self d (widget_to_var w.name) w.val)
    · exact ih _ w h1

theorem keys_foldl_dictSet_of_contains : ∀ (l : List Widget) (d : StrMap Val),
    (∀ w ∈ l, dictContains d (widget_to_var w.name) = true) →
    dictKeys (l.foldl
      (fun d x => dictSet d (widget_to_var x.name) x.val) d) = dictKeys d := by
  intro l
  induction l with
  | nil =>
    intro d _
    rfl
  | cons x rest ih =>
    intro d h
    rw [List.foldl_cons]
    have hx := h x (by simp)
    have hkeys : dictKeys (dictSet d (widget_to_var x.name) x.val) = dictKeys d :=
      dictKeys_dictSet_of_contains _ _ _ hx
    have hrest : ∀ w ∈ rest, dictContains (dictSet d (widget_to_var x.name) x.val)
        (widget_to_var w.name) = true := by
      intro w hw
      rw [dictContains_iff_mem_keys, hkeys, ← dictContains_iff_mem_keys]
      exact h w (by simp [hw])
    rw [ih _ hrest, hkeys]

theorem keysInv_writeWidget (st : AppState) (w : String) (v : Val)
    (h : keysInv st) : keysInv (writeWidget st w v) := by
  obtain ⟨hk, hreg⟩ := h
  constructor
  · rw [writeWidget_data, writeWidget_data_empty]
    exact hk
  · intro u hu
    obtain ⟨u0, hu0, hn0, _, _⟩ :=
      mem_sig_transfer st _ (sk_writeWidget st w v) u hu
    rw [writeWidget_data, ← hn0]
    exact hreg u0 hu0

theorem keysInv_vc (fuel : Nat) (st : AppState) (w : String)
    (h : keysInv st) : keysInv (values_changed fuel st w) := by
  obtain ⟨hk, hreg⟩ := h
  have hkeys := vc_keys fuel st w hreg
  have hpres := vc_preserves fuel st w
  constructor
  · rw [hkeys, hpres.2.2.1]
    exact hk
  · intro u hu
    obtain ⟨u0, hu0, hn0, _, _⟩ := mem_sig_transfer st _ hpres.1 u hu
    have hc := hreg u0 hu0
    rw [dictContains_iff_mem_keys] at hc ⊢
    rw [hkeys, ← hn0]
    exact hc

theorem keysInv_after_read_forms (B : AppState) :
    keysInv { read_forms B with data_empty := (read_forms B).data } := by
  constructor
  · rfl
  · intro u hu
    have hw : (read_forms B).widgets = B.widgets := by rw [read_forms_eq]
    have hu2 : u ∈ (read_forms B).widgets := hu
    rw [hw] at hu2
    have hdata : (read_forms B).data = B.widgets.foldl
        (fun d x => dictSet d (widget_to_var x.name) x.val) B.data := by
      rw [read_forms_eq]
    have hgoal : dictContains ((read_forms B)).data (widget_to_var u.name)
        = true := by
      rw [hdata]
      exact contains_foldl_dictSet B.widgets B.data u hu2
    exact hgoal

/-! ## Claim theorems: frame of restore_forms (C10) -/

/-- C10: while restore_forms restores the widgets from the record the
update-dict guard is false, so the change notifications it triggers
update neither the record nor the database and show no dialogs; the
guard is true again when restore_forms returns, and record, database row
and message list are exactly as before. -/
theorem c10_restore_is_frame :
    (∀ (fuel : Nat) (st : AppState) (w : String), st.update_dict = false →
      (values_changed fuel st w).data = st.data ∧
      (values_changed fuel st w).db = st.db ∧
      (values_changed fuel st w).msgs = st.msgs ∧
      (values_changed fuel st w).update_dict = false) ∧
    (∀ (fuel : Nat) (st : AppState),
      (restore_forms fuel st).data = st.data ∧
      (restore_forms fuel st).db = st.db ∧
      (restore_forms fuel st).msgs = st.msgs ∧
      (restore_forms fuel st).update_dict = true) := by
  constructor
  · intro fuel st w h
    obtain ⟨h1, h2, h3⟩ := vc_guard_off fuel st w h
    refine ⟨h1, h2, h3, ?_⟩
    rw [(vc_preserves fuel st w).2.1, h]
  · intro fuel st
    obtain ⟨h1, h2, h3, _, h5, _⟩ := restore_forms_frame fuel st
    exact ⟨h1, h2, h3, h5⟩

/-- C10 witness: a concrete guarded-off notification writes nothing, and
a concrete restore_forms run leaves record, row and messages unchanged
with the guard re-enabled. -/
theorem c10_restore_is_frame_witness :
    (values_changed 2 { demo_state with update_dict := false } "spXUn").data =
      ({ demo_state with update_dict := false } : AppState).data ∧
    (restore_forms 2 demo_state).data = demo_state.data ∧
    (restore_forms 2 demo_state).update_dict = true :=
  ⟨(c10_restore_is_frame.1 2 { demo_state with update_dict := false }
      "spXUn" rfl).1,
   (c10_restore_is_frame.2 2 demo_state).1,
   (c10_restore_is_frame.2 2 demo_state).2.2.2⟩

/-! ## Claim theorems: load semantics (C3) -/

/-- C3: after load, every registered field holds the row's value when it
is non-null and the defaults-baseline value when the column is NULL or
absent; hence loading a row produced from a snapshot reproduces the
snapshot on every non-null field, with null fields resolving to
defaults. -/
theorem c3_load_overwrites_nonnull (fuel : Nat) (st : AppState) (f : String)
    (hnd : (dictKeys st.data).Nodup) (hf : f ∈ dictKeys st.data) :
    dictGet (read_data fuel st).data f =
      (match dictGet st.db f with
       | some q => if q = Val.null then dictGet st.data_empty f else some q
       | none => dictGet st.data_empty f) ∧
    (∀ q : Val, dictGet st.db f = some q → q ≠ Val.null →
      dictGet (read_data fuel st).data f = some q) := by
  have hrd : read_data fuel st = restore_forms fuel
      { st with data := (dictUnion st.data_empty
          (read_row st.db (dictKeys st.data))) } := rfl
  have hmain : dictGet (read_data fuel st).data f =
      (match dictGet st.db f with
       | some q => if q = Val.null then dictGet st.data_empty f else some q
       | none => dictGet st.data_empty f) := by
    rw [hrd, (restore_forms_frame fuel _).1]
    have hu : dictGet ({ st with data := (dictUnion st.data_empty
        (read_row st.db (dictKeys st.data))) } : AppState).data f =
        dictGet (dictUnion st.data_empty (read_row st.db (dictKeys st.data))) f :=
      rfl
    rw [hu, dictGet_dictUnion, dictGet_read_row_eq st.db (dictKeys st.data) hnd f hf]
    cases hdb : dictGet st.db f with
    | none => simp
    | some q =>
      by_cases hq : q = Val.null
      · simp [hq]
      · simp [hq]
  refine ⟨hmain, ?_⟩
  intro q hq hqn
  rw [hmain, hq]
  simp [hqn]

/-- C3 witness: loading the demo row overwrites `XUn` with the stored
value 7 while the NULL `Paino` column resolves to its default. -/
theorem c3_load_overwrites_nonnull_witness :
    dictGet (read_data 1 demo_db_state).data "XUn" = some (Val.num 7) ∧
    dictGet (read_data 1 demo_db_state).data "Paino" =
      dictGet demo_db_state.data_empty "Paino" := by
  constructor
  · exact (c3_load_overwrites_nonnull 1 demo_db_state "XUn" (by decide)
      (by decide)).2 (Val.num 7) rfl (by decide)
  · have h := (c3_load_overwrites_nonnull 1 demo_db_state "Paino" (by decide)
      (by decide)).1
    rw [h]
    rfl

/-! ## Claim theorems: non-fatal write failure (C4) -/

/-- C4: when the database write emitted by a set fails because the store
is locked, the failure is reported non-fatally (a dialog message is
recorded, no exception escapes), the row is left unchanged, and the
in-memory record still holds the new value — it is never rolled back. -/
theorem c4_write_failure_keeps_record (fuel : Nat) (st : AppState)
    (f : String) (v : Val) (wf : Widget)
    (hud : st.update_dict = true)
    (hnd : (wnames st).Nodup)
    (hf : st.findWidget f = some wf) (hfi : wf.autoinputs = none) :
    dictGet (user_set (fuel + 1) st f v).data (widget_to_var f) = some v ∧
    (st.dbLocked = true →
      (user_set (fuel + 1) st f v).db = st.db ∧
      db_error_msg ∈ (user_set (fuel + 1) st f v).msgs) := by
  unfold user_set
  have hsk0 : sk (writeWidget st f v) = sk st := sk_writeWidget st f v
  have hnd0 : (wnames (writeWidget st f v)).Nodup := by
    rw [wnames_of_sk st _ hsk0]
    exact hnd
  have hf0 : (writeWidget st f v).findWidget f = some { wf with val := v } := by
    rw [findWidget_writeWidget_self, hf]
    rfl
  have hfi0 : ({ wf with val := v } : Widget).autoinputs = none := hfi
  have hud0 : (writeWidget st f v).update_dict = true := hud
  rw [values_changed_succ]
  unfold values_changed_body
  have hstep : ∀ (acc : AppState) (a : Widget),
      a ∈ (writeWidget st f v).widgets.filter (fun a => autoinputsContain a f) →
      (sk acc = sk (writeWidget st f v) ∧ acc.update_dict = true ∧
        acc.findWidget f = some { wf with val := v } ∧
        (st.dbLocked = true → acc.db = st.db ∧ acc.dbLocked = true)) →
      (sk (autocalculate fuel acc a.name) = sk (writeWidget st f v) ∧
        (autocalculate fuel acc a.name).update_dict = true ∧
        (autocalculate fuel acc a.name).findWidget f = some { wf with val := v } ∧
        (st.dbLocked = true → (autocalculate fuel acc a.name).db = st.db ∧
          (autocalculate fuel acc a.name).dbLocked = true)) := by
    intro acc a hmem hP
    have hmem2 := List.mem_filter.mp hmem
    have hsome := autoinputsContain_isSome a f hmem2.2
    have hne : a.name ≠ f := by
      intro he
      have heq := findWidget_unique (writeWidget st f v) hnd0 f
        ({ wf with val := v }) a hf0 hmem2.1 he
      rw [heq, hfi0] at hsome
      simp at hsome
    cases hfw : acc.findWidget a.name with
    | none =>
      rw [autocalculate_none fuel acc a.name hfw]
      exact hP
    | some cur =>
      rw [autocalculate_some fuel acc a.name cur hfw]
      have hsk1 : sk (writeWidget acc a.name (autocalc_value acc cur)) =
          sk (writeWidget st f v) := by
        rw [sk_writeWidget]
        exact hP.1
      have hud1 : (writeWidget acc a.name (autocalc_value acc cur)).update_dict
          = true := by
        rw [writeWidget_update_dict]
        exact hP.2.1
      have hffr : (writeWidget acc a.name (autocalc_value acc cur)).findWidget f
          = some { wf with val := v } := by
        rw [findWidget_writeWidget_ne _ _ _ _ (Ne.symm hne)]
        exact hP.2.2.1
      have hdbp : st.dbLocked = true →
          (writeWidget acc a.name (autocalc_value acc cur)).db = st.db ∧
          (writeWidget acc a.name (autocalc_value acc cur)).dbLocked = true :=
        fun hl => ⟨by rw [writeWidget_db] ; exact (hP.2.2.2 hl).1,
          by rw [writeWidget_dbLocked] ; exact (hP.2.2.2 hl).2⟩
      by_cases hsig : cur.connected = true ∧ ¬ autocalc_value acc cur = cur.val
      · rw [if_pos hsig]
        have hnd1 : (wnames (writeWidget acc a.name (autocalc_value acc cur))).Nodup := by
          rw [wnames_of_sk (writeWidget st f v) _ hsk1]
          exact hnd0
        refine ⟨?_, ?_, ?_, ?_⟩
        · rw [(vc_preserves fuel _ a.name).1, hsk1]
        · rw [(vc_preserves fuel _ a.name).2.1]
          exact hud1
        · exact vc_widget_frame fuel _ a.name f _ hnd1 hffr hfi0
        · intro hl
          obtain ⟨hdb1, hlk1⟩ := hdbp hl
          refine ⟨?_, ?_⟩
          · rw [vc_db_locked fuel _ a.name hlk1]
            exact hdb1
          · rw [(vc_preserves fuel _ a.name).2.2.2]
            exact hlk1
      · rw [if_neg hsig]
        exact ⟨hsk1, hud1, hffr, hdbp⟩
  have hfold := foldl_inv
    (fun acc => sk acc = sk (writeWidget st f v) ∧ acc.update_dict = true ∧
      acc.findWidget f = some { wf with val := v } ∧
      (st.dbLocked = true → acc.db = st.db ∧ acc.dbLocked = true))
    (fun acc a => autocalculate fuel acc a.name)
    ((writeWidget st f v).widgets.filter (fun a => autoinputsContain a f))
    (writeWidget st f v)
    ⟨rfl, hud0, hf0, fun hl => ⟨rfl, hl⟩⟩ hstep
  set st1 := ((writeWidget st f v).widgets.filter
    (fun a => autoinputsContain a f)).foldl
    (fun acc a => autocalculate fuel acc a.name) (writeWidget st f v) with hst1
  obtain ⟨hsk1, hud1, hf1, hdb1⟩ := hfold
  constructor
  · rw [top_update_data_of_found st1 f _ hud1 hf1]
    exact dictGet_dictSet_self st1.data (widget_to_var f) _
  · intro hl
    obtain ⟨hdbeq, hlk1⟩ := hdb1 hl
    constructor
    · rw [top_update_db_of_locked st1 f hlk1]
      exact hdbeq
    · rw [top_update_msgs_of_found_locked st1 f _ hud1 hf1 hlk1]
      exact List.mem_cons_self _ _

/-- C4 witness: with the database locked, setting the weight to 80 keeps
the new value in the record, leaves the row unchanged and records the
non-fatal error dialog. -/
theorem c4_write_failure_keeps_record_witness :
    dictGet (user_set 1 demo_locked "spPaino" (Val.num 80)).data "Paino" =
      some (Val.num 80) ∧
    (user_set 1 demo_locked "spPaino" (Val.num 80)).db = demo_locked.db ∧
    db_error_msg ∈ (user_set 1 demo_locked "spPaino" (Val.num 80)).msgs := by
  have h := c4_write_failure_keeps_record 0 demo_locked "spPaino" (Val.num 80)
    { name := "spPaino", val := Val.num 2, autoinputs := none,
      connected := true, enabled := true }
    rfl (by decide) (by decide) rfl
  obtain ⟨h1, h2⟩ := h
  obtain ⟨h3, h4⟩ := h2 rfl
  exact ⟨h1, h3, h4⟩

/-! ## Claim theorems: key-set consistency (C5) -/

/-- C5: the record's key set equals the defaults baseline's key set
immediately after construction, and the invariant is preserved by set
(a widget edit through values_changed), by load (read_data) and by
read_all (read_forms); hence a field name is in the record iff it is in
the defaults. -/
theorem c5_key_sets_agree :
    (∀ (ws : List Widget) (db : StrMap Val) (locked : Bool),
      keysInv (init_app ws db locked)) ∧
    (∀ (fuel : Nat) (st : AppState) (w : String) (v : Val),
      keysInv st → keysInv (user_set fuel st w v)) ∧
    (∀ (fuel : Nat) (st : AppState), keysInv st → keysInv (read_data fuel st)) ∧
    (∀ st : AppState, keysInv st → keysInv (read_forms st)) ∧
    (∀ (st : AppState) (f : String), keysInv st →
      (f ∈ dictKeys st.data ↔ f ∈ dictKeys st.data_empty)) := by
  refine ⟨?_, ?_, ?_, ?_, ?_⟩
  · intro ws db locked
    exact keysInv_after_read_forms
      { widgets := disable_autowidgets ws, data := [], data_empty := [],
        update_dict := true, db := db, dbLocked := locked, msgs := [],
        save_to_tmp := true }
  · intro fuel st w v h
    exact keysInv_vc fuel _ w (keysInv_writeWidget st w v h)
  · intro fuel st h
    obtain ⟨hk, hreg⟩ := h
    have hrd : read_data fuel st = restore_forms fuel
        { st with data := (dictUnion st.data_empty
            (read_row st.db (dictKeys st.data))) } := rfl
    have hsub : ∀ k ∈ dictKeys (read_row st.db (dictKeys st.data)),
        k ∈ dictKeys st.data_empty := by
      intro k hk2
      have hm := mem_keys_read_row_eq st.db (dictKeys st.data) k hk2
      rw [← hk]
      exact hm
    have hkeysu : dictKeys (dictUnion st.data_empty
        (read_row st.db (dictKeys st.data))) = dictKeys st.data_empty :=
      dictKeys_dictUnion_of_subset _ _ hsub
    have hframe := restore_forms_frame fuel
      { st with data := (dictUnion st.data_empty
          (read_row st.db (dictKeys st.data))) }
    rw [hrd]
    constructor
    · rw [hframe.1, hframe.2.2.2.1]
      exact hkeysu
    · intro u hu
      have hsk2 : sk (restore_forms fuel
          { st with data := (dictUnion st.data_empty
              (read_row st.db (dictKeys st.data))) }) = sk st := by
        rw [hframe.2.2.2.2.2]
        rfl
      obtain ⟨u0, hu0, hn0, _, _⟩ := mem_sig_transfer st _ hsk2 u hu
      have hc := hreg u0 hu0
      rw [dictContains_iff_mem_keys] at hc ⊢
      rw [hframe.1, ← hn0]
      have hgoal : widget_to_var u0.name ∈ dictKeys (dictUnion st.data_empty
          (read_row st.db (dictKeys st.data))) := by
        rw [hkeysu, ← hk]
        exact hc
      exact hgoal
  · intro st h
    obtain ⟨hk, hreg⟩ := h
    rw [read_forms_eq]
    have hkeys : dictKeys (st.widgets.foldl
        (fun d x => dictSet d (widget_to_var x.name) x.val) st.data) =
        dictKeys st.data :=
      keys_foldl_dictSet_of_contains st.widgets st.data hreg
    constructor
    · have hgoal : dictKeys (st.widgets.foldl
          (fun d x => dictSet d (widget_to_var x.name) x.val) st.data) =
          dictKeys st.data_empty := by
        rw [hkeys]
        exact hk
      exact hgoal
    · intro u hu
      have hu2 : u ∈ st.widgets := hu
      have hc := hreg u hu2
      rw [dictContains_iff_mem_keys] at hc ⊢
      have hgoal : widget_to_var u.name ∈ dictKeys (st.widgets.foldl
          (fun d x => dictSet d (widget_to_var x.name) x.val) st.data) := by
        rw [hkeys]
        exact hc
      exact hgoal
  · intro st f h
    rw [h.1]

/-- C5 witness: the invariant holds for the freshly constructed demo
application and is preserved by a concrete set. -/
theorem c5_key_sets_agree_witness :
    keysInv (init_app demo_widgets [] false) ∧
    keysInv (user_set 2 demo_state "spXUn" (Val.num 6)) ∧
    ("Paino" ∈ dictKeys demo_state.data ↔
      "Paino" ∈ dictKeys demo_state.data_empty) :=
  ⟨c5_key_sets_agree.1 demo_widgets [] false,
   c5_key_sets_agree.2.1 2 demo_state "spXUn" (Val.num 6)
     ⟨rfl, by decide⟩,
   c5_key_sets_agree.2.2.2.2 demo_state "Paino" ⟨rfl, by decide⟩⟩

/-! ## Claim theorems: synchronous weight normalization (C1) -/

theorem filter_autos_empty (st0 stX : AppState) (hsk : sk stX = sk st0)
    (hnol : noAutoFeeds st0) (aname : String)
    (hex : ∃ a ∈ st0.widgets, a.name = aname ∧ a.autoinputs.isSome = true) :
    stX.widgets.filter (fun b => autoinputsContain b aname) = [] := by
  rw [List.filter_eq_nil_iff]
  intro b hb
  have hnolX := noAutoFeeds_of_sk st0 stX hsk hnol
  obtain ⟨a1, ha1, han1, hsome1⟩ := exists_auto_of_sk st0 stX hsk aname hex
  have hc := hnolX a1 ha1 hsome1 b hb
  rw [han1] at hc
  simp [hc]

/-- C1: for a derived (weight-normalized) widget with sources
`(sname, nname)`, an edit of either source recomputes the derived record
entry synchronously inside the very `values_changed` call: afterwards the
record holds the "not measured" sentinel when either source is at the
sentinel and `source / weight` otherwise — no read can see a value
computed from stale sources. -/
theorem c1_weight_normalized_sync (fuel : Nat) (st : AppState)
    (dname sname nname c : String) (wd ws wn : Widget) (v : Val)
    (hnd : (wnames st).Nodup)
    (hnol : noAutoFeeds st)
    (hud : st.update_dict = true)
    (hd : st.findWidget dname = some wd)
    (hdi : wd.autoinputs = some (sname, nname))
    (hdc : wd.connected = true)
    (hs : st.findWidget sname = some ws) (hsi : ws.autoinputs = none)
    (hn : st.findWidget nname = some wn) (hni : wn.autoinputs = none)
    (hcons : dictGet st.data (widget_to_var dname) = some wd.val)
    (hvars : autoVarsDistinctFrom st dname)
    (hcv : widget_to_var c ≠ widget_to_var dname)
    (hc : c = sname ∨ c = nname) :
    dictGet (user_set (fuel + 2) st c v).data (widget_to_var dname) =
      some (weight_normalize (if sname = c then v else ws.val)
        (if nname = c then v else wn.val)) := by
  have hsd : sname ≠ dname := by
    intro he
    rw [he, hd] at hs
    injection hs with hws
    rw [← hws, hdi] at hsi
    exact Option.noConfusion hsi
  have hnnd : nname ≠ dname := by
    intro he
    rw [he, hd] at hn
    injection hn with hwn
    rw [← hwn, hdi] at hni
    exact Option.noConfusion hni
  have hcd : c ≠ dname := by
    rcases hc with rfl | rfl
    · exact hsd
    · exact hnnd
  unfold user_set
  set st0 := writeWidget st c v with hst0
  have hsk0 : sk st0 = sk st := by rw [hst0, sk_writeWidget]
  have hnd0 : (wnames st0).Nodup := by
    rw [wnames_of_sk st st0 hsk0]
    exact hnd
  have hnol0 : noAutoFeeds st0 := noAutoFeeds_of_sk st st0 hsk0 hnol
  have hud0 : st0.update_dict = true := hud
  have hvars0 : autoVarsDistinctFrom st0 dname :=
    autoVarsDistinctFrom_of_sk st st0 hsk0 dname hvars
  have hd0 : st0.findWidget dname = some wd := by
    rw [hst0, findWidget_writeWidget_ne st c v dname (Ne.symm hcd)]
    exact hd
  set WS0 : Widget := if sname = c then { ws with val := v } else ws with hWS0
  set WN0 : Widget := if nname = c then { wn with val := v } else wn with hWN0
  have hs0 : st0.findWidget sname = some WS0 := by
    rw [hWS0]
    by_cases he : sname = c
    · rw [if_pos he, hst0, he, findWidget_writeWidget_self, ← he, hs]
      rfl
    · rw [if_neg he, hst0, findWidget_writeWidget_ne st c v sname he]
      exact hs
  have hn0 : st0.findWidget nname = some WN0 := by
    rw [hWN0]
    by_cases he : nname = c
    · rw [if_pos he, hst0, he, findWidget_writeWidget_self, ← he, hn]
      rfl
    · rw [if_neg he, hst0, findWidget_writeWidget_ne st c v nname he]
      exact hn
  have hWSval : WS0.val = if sname = c then v else ws.val := by
    rw [hWS0]
    by_cases he : sname = c
    · rw [if_pos he, if_pos he]
    · rw [if_neg he, if_neg he]
  have hWNval : WN0.val = if nname = c then v else wn.val := by
    rw [hWN0]
    by_cases he : nname = c
    · rw [if_pos he, if_pos he]
    · rw [if_neg he, if_neg he]
  have hWSi : WS0.autoinputs = none := by
    rw [hWS0]
    by_cases he : sname = c
    · rw [if_pos he]
      exact hsi
    · rw [if_neg he]
      exact hsi
  have hWNi : WN0.autoinputs = none := by
    rw [hWN0]
    by_cases he : nname = c
    · rw [if_pos he]
      exact hni
    · rw [if_neg he]
      exact hni
  have hcons0 : dictGet st0.data (widget_to_var dname) = some wd.val := hcons
  rw [show fuel + 2 = (fuel + 1) + 1 from rfl, values_changed_succ]
  unfold values_changed_body
  set autos := st0.widgets.filter (fun a => autoinputsContain a c) with hautos
  have hwdmem : wd ∈ st0.widgets := findWidget_mem st0 dname wd hd0
  have hwdname : wd.name = dname := findWidget_name st0 dname wd hd0
  have hwdsome : wd.autoinputs.isSome = true := by
    rw [hdi]
    rfl
  have hwdc : autoinputsContain wd c = true := by
    unfold autoinputsContain
    rw [hdi]
    rcases hc with rfl | rfl
    · simp
    · simp
  have hdmem : wd ∈ autos := by
    rw [hautos]
    exact List.mem_filter.mpr ⟨hwdmem, hwdc⟩
  obtain ⟨l1, l2, hsplit⟩ := List.append_of_mem hdmem
  have hndautos : (autos.map Widget.name).Nodup := by
    have hsubl : List.Sublist (autos.map Widget.name)
        (st0.widgets.map Widget.name) := by
      rw [hautos]
      exact List.Sublist.map _ (List.filter_sublist _)
    exact List.Nodup.sublist hsubl hnd0
  have hnd2 : (l1.map Widget.name ++ wd.name :: l2.map Widget.name).Nodup := by
    rw [← List.map_cons, ← List.map_append, ← hsplit]
    exact hndautos
  rw [List.nodup_append] at hnd2
  obtain ⟨_, hndmid, hdisj⟩ := hnd2
  have hl1d : ∀ x ∈ l1, x.name ≠ dname := by
    intro x hx he
    refine hdisj (List.mem_map_of_mem Widget.name hx) ?_
    rw [he, ← hwdname]
    exact List.mem_cons_self _ _
  have hl2d : ∀ x ∈ l2, x.name ≠ dname := by
    intro x hx he
    apply (List.nodup_cons.mp hndmid).1
    rw [hwdname, ← he]
    exact List.mem_map_of_mem Widget.name hx
  have hmem_autos : ∀ x ∈ l1 ++ l2, x ∈ st0.widgets ∧
      x.autoinputs.isSome = true := by
    intro x hx
    have hxa : x ∈ autos := by
      rw [hsplit]
      rcases List.mem_append.mp hx with h1 | h1
      · exact List.mem_append_left _ h1
      · exact List.mem_append_right _ (List.mem_cons_of_mem _ h1)
    rw [hautos] at hxa
    have hf := List.mem_filter.mp hxa
    exact ⟨hf.1, autoinputsContain_isSome x c hf.2⟩
  have hname_ne_s : ∀ x ∈ st0.widgets, x.autoinputs.isSome = true →
      x.name ≠ sname := by
    intro x hx hxs he
    have heq := findWidget_unique st0 hnd0 sname WS0 x hs0 hx he
    rw [heq, hWSi] at hxs
    exact Bool.noConfusion hxs
  have hname_ne_n : ∀ x ∈ st0.widgets, x.autoinputs.isSome = true →
      x.name ≠ nname := by
    intro x hx hxs he
    have heq := findWidget_unique st0 hnd0 nname WN0 x hn0 hx he
    rw [heq, hWNi] at hxs
    exact Bool.noConfusion hxs
  rw [hsplit, List.foldl_append, List.foldl_cons]
  have hstepA : ∀ (acc : AppState) (a : Widget), a ∈ l1 →
      (sk acc = sk st0 ∧ acc.update_dict = true ∧
        acc.findWidget dname = some wd ∧
        acc.findWidget sname = some WS0 ∧
        acc.findWidget nname = some WN0 ∧
        dictGet acc.data (widget_to_var dname) = some wd.val) →
      (sk (autocalculate (fuel + 1) acc a.name) = sk st0 ∧
        (autocalculate (fuel + 1) acc a.name).update_dict = true ∧
        (autocalculate (fuel + 1) acc a.name).findWidget dname = some wd ∧
        (autocalculate (fuel + 1) acc a.name).findWidget sname = some WS0 ∧
        (autocalculate (fuel + 1) acc a.name).findWidget nname = some WN0 ∧
        dictGet (autocalculate (fuel + 1) acc a.name).data
          (widget_to_var dname) = some wd.val) := by
    intro acc a hal1 hP
    have hfacts := hmem_autos a (List.mem_append_left _ hal1)
    have haw := hfacts.1
    have hasome := hfacts.2
    have handname : a.name ≠ dname := hl1d a hal1
    have effects := autocalculate_effects fuel st0 acc a.name hP.1 hnol0
      ⟨a, haw, rfl, hasome⟩ hP.2.1
    refine ⟨effects.1, effects.2.1, ?_, ?_, ?_, ?_⟩
    · exact effects.2.2.2 dname wd (Ne.symm handname) hP.2.2.1
    · exact effects.2.2.2 sname WS0 (Ne.symm (hname_ne_s a haw hasome)) hP.2.2.2.1
    · exact effects.2.2.2 nname WN0 (Ne.symm (hname_ne_n a haw hasome)) hP.2.2.2.2.1
    · rw [effects.2.2.1 (widget_to_var dname) (hvars0 a haw hasome handname)]
      exact hP.2.2.2.2.2
  have hA := foldl_inv
    (fun acc => sk acc = sk st0 ∧ acc.update_dict = true ∧
      acc.findWidget dname = some wd ∧
      acc.findWidget sname = some WS0 ∧
      acc.findWidget nname = some WN0 ∧
      dictGet acc.data (widget_to_var dname) = some wd.val)
    (fun acc a => autocalculate (fuel + 1) acc a.name) l1 st0
    ⟨rfl, hud0, hd0, hs0, hn0, hcons0⟩ hstepA
  set A := l1.foldl (fun acc a => autocalculate (fuel + 1) acc a.name) st0
    with hAdef
  rw [hwdname]
  have hnv : autocalc_value A wd = weight_normalize WS0.val WN0.val := by
    simp only [autocalc_value, hdi, hA.2.2.2.1, hA.2.2.2.2.1]
  have hQB : sk (autocalculate (fuel + 1) A dname) = sk st0 ∧
      (autocalculate (fuel + 1) A dname).update_dict = true ∧
      dictGet (autocalculate (fuel + 1) A dname).data (widget_to_var dname) =
        some (weight_normalize WS0.val WN0.val) := by
    rw [autocalculate_some (fuel + 1) A dname wd hA.2.2.1, hnv]
    by_cases hchg : weight_normalize WS0.val WN0.val = wd.val
    · rw [if_neg (fun hcontra => hcontra.2 hchg)]
      refine ⟨by rw [sk_writeWidget] ; exact hA.1,
        by rw [writeWidget_update_dict] ; exact hA.2.1, ?_⟩
      rw [writeWidget_data, hchg]
      exact hA.2.2.2.2.2
    · rw [if_pos ⟨hdc, hchg⟩]
      have hskX : sk (writeWidget A dname (weight_normalize WS0.val WN0.val)) =
          sk st0 := by
        rw [sk_writeWidget]
        exact hA.1
      have hempty := filter_autos_empty st0 _ hskX hnol0 dname
        ⟨wd, hwdmem, hwdname, hwdsome⟩
      have hudX : (writeWidget A dname
          (weight_normalize WS0.val WN0.val)).update_dict = true := by
        rw [writeWidget_update_dict]
        exact hA.2.1
      have hfwX : (writeWidget A dname
          (weight_normalize WS0.val WN0.val)).findWidget dname =
          some { wd with val := weight_normalize WS0.val WN0.val } := by
        rw [findWidget_writeWidget_self, hA.2.2.1]
        rfl
      rw [vc_lonely fuel _ dname _ hempty hudX hfwX]
      refine ⟨?_, ?_, ?_⟩
      · rw [sk_update_rom_single]
        exact hskX
      · rw [update_rom_single_update_dict]
        exact hudX
      · rw [update_rom_single_data]
        exact dictGet_dictSet_self _ _ _
  have hstepC : ∀ (acc : AppState) (a : Widget), a ∈ l2 →
      (sk acc = sk st0 ∧ acc.update_dict = true ∧
        dictGet acc.data (widget_to_var dname) =
          some (weight_normalize WS0.val WN0.val)) →
      (sk (autocalculate (fuel + 1) acc a.name) = sk st0 ∧
        (autocalculate (fuel + 1) acc a.name).update_dict = true ∧
        dictGet (autocalculate (fuel + 1) acc a.name).data
          (widget_to_var dname) =
          some (weight_normalize WS0.val WN0.val)) := by
    intro acc a hal2 hP
    have hfacts := hmem_autos a (List.mem_append_right _ hal2)
    have haw := hfacts.1
    have hasome := hfacts.2
    have handname : a.name ≠ dname := hl2d a hal2
    have effects := autocalculate_effects fuel st0 acc a.name hP.1 hnol0
      ⟨a, haw, rfl, hasome⟩ hP.2.1
    refine ⟨effects.1, effects.2.1, ?_⟩
    rw [effects.2.2.1 (widget_to_var dname) (hvars0 a haw hasome handname)]
    exact hP.2.2
  have hfold2 := foldl_inv
    (fun acc => sk acc = sk st0 ∧ acc.update_dict = true ∧
      dictGet acc.data (widget_to_var dname) =
        some (weight_normalize WS0.val WN0.val))
    (fun acc a => autocalculate (fuel + 1) acc a.name) l2
    (autocalculate (fuel + 1) A dname) hQB hstepC
  rw [top_update_data_frame _ c (widget_to_var dname) hcv]
  rw [hfold2.2.2, hWSval, hWNval]

/-- C1 witness: on the demo state, editing the unnormalized source to 6
with the weight at 2 makes the derived record entry 6 / 2 = 3, computed
inside the same set call. -/
theorem c1_weight_normalized_sync_witness :
    dictGet (user_set 2 demo_state "spXUn" (Val.num 6)).data
      (widget_to_var "spX") = some (Val.num 3) := by
  have h := c1_weight_normalized_sync 0 demo_state "spX" "spXUn" "spPaino"
    "spXUn"
    { name := "spX", val := noval, autoinputs := some ("spXUn", "spPaino"),
      connected := true, enabled := false }
    { name := "spXUn", val := noval, autoinputs := none, connected := true,
      enabled := true }
    { name := "spPaino", val := Val.num 2, autoinputs := none,
      connected := true, enabled := true }
    (Val.num 6)
    (by decide) (by unfold noAutoFeeds ; decide) rfl (by decide) rfl rfl
    (by decide) rfl (by decide) rfl (by decide)
    (by unfold autoVarsDistinctFrom ; decide) (by decide) (Or.inl rfl)
  have hne : ¬ ("spPaino" = "spXUn") := by decide
  rw [h, if_pos rfl, if_neg hne]
  have hval : weight_normalize (Val.num 6) (Val.num 2) = Val.num 3 := by
    unfold weight_normalize
    rw [if_neg]
    · show Val.num ((6 : ℚ) / 2) = Val.num 3
      norm_num
    · rintro (hx | hx) <;> exact Val.noConfusion hx
  rw [hval]

/-! ## Renderer lemmas -/

theorem smart_eol_step_head (out : List Char) :
    ∃ rest, smart_eol_step out = '\n' :: rest := by
  unfold smart_eol_step
  split
  · exact ⟨_, rfl⟩
  · exact ⟨'.' :: stripTrailingSeps out, rfl⟩

theorem renderBlocks_append_discarded (rec repl : StrMap String)
    (defaults : List String) (mid rest : List Block) (out : List Char)
    (h : ∀ b ∈ mid, ∀ o, renderBlock rec repl defaults o b = .ok o) :
    renderBlocks rec repl defaults (mid ++ rest) out =
      renderBlocks rec repl defaults rest out := by
  induction mid generalizing out with
  | nil => rfl
  | cons b mid ih =>
    have hb : renderBlock rec repl defaults out b = .ok out :=
      h b (by simp) out
    calc renderBlocks rec repl defaults ((b :: mid) ++ rest) out
        = renderBlocks rec repl defaults (mid ++ rest) out := by
          simp [renderBlocks, hb]
      _ = renderBlocks rec repl defaults rest out :=
          ih out (fun b' hb' o => h b' (by simp [hb']) o)

/-! ## Claim theorems: renderer -/

/-- C6: a literal template block referencing at least one field, all of
whose referenced fields are at their default values, contributes the empty
string to the output; a block referencing at least one non-default field
renders in full (substituted and appended, capitalized at line start); a
block with no placeholders is never discarded. -/
theorem c6_default_block_omission :
    (∀ (rec repl : StrMap String) (defaults : List String) (text : String)
        (out : List Char), fieldRefs text ≠ [] →
      (∀ f ∈ fieldRefs text, f ∈ defaults) →
      renderBlock rec repl defaults out (.lit text) = .ok out) ∧
    (∀ (rec repl : StrMap String) (defaults : List String) (text : String)
        (out : List Char) (f : String), f ∈ fieldRefs text → f ∉ defaults →
      renderBlock rec repl defaults out (.lit text) =
        match substitute rec repl text with
        | .ok sub => .ok
            ((if atLineStart out then capitalizeFirst sub else sub).reverse ++ out)
        | .error e => .error e) ∧
    (∀ (rec repl : StrMap String) (defaults : List String) (text : String)
        (out : List Char), fieldRefs text = [] →
      renderBlock rec repl defaults out (.lit text) =
        match substitute rec repl text with
        | .ok sub => .ok
            ((if atLineStart out then capitalizeFirst sub else sub).reverse ++ out)
        | .error e => .error e) := by
  refine ⟨?_, ?_, ?_⟩
  · intro rec repl defaults text out h1 h2
    simp only [renderBlock]
    rw [if_pos ⟨h1, h2⟩]
  · intro rec repl defaults text out f hf hnd
    simp only [renderBlock]
    rw [if_neg (fun hc => hnd (hc.2 f hf))]
  · intro rec repl defaults text out h
    simp only [renderBlock]
    rw [if_neg (fun hc => hc.1 h)]

/-- C6 witness: a concrete all-default block is discarded, and the same
block with its field modified renders in full. -/
theorem c6_default_block_omission_witness :
    renderBlock [("A", "5")] [] ["A"] ['\n']
        (.lit "paino: \x7bA\x7d") = .ok ['\n'] ∧
    renderBlock [("A", "5")] [] [] ['\n']
        (.lit "paino: \x7bA\x7d") =
      .ok ((capitalizeFirst "paino: 5".data).reverse ++ ['\n']) := by
  constructor
  · exact c6_default_block_omission.1 [("A", "5")] [] ["A"] "paino: \x7bA\x7d"
      ['\n'] (by decide) (by decide)
  · have h := c6_default_block_omission.2.1 [("A", "5")] [] []
      "paino: \x7bA\x7d" ['\n'] "A" (by decide) (by decide)
    rw [h]
    rfl

/-- C7: SMART_EOL processing is idempotent — after a newline it emits
nothing, otherwise it strips any trailing run of ", " and appends ".\n";
consequently two consecutive SMART_EOL markers with no surviving block
between them produce exactly one ".\n". -/
theorem c7_smart_eol_idempotent :
    (∀ out : List Char, smart_eol_step ('\n' :: out) = '\n' :: out) ∧
    (∀ out : List Char, out.head? ≠ some '\n' →
      smart_eol_step out = '\n' :: '.' :: stripTrailingSeps out) ∧
    (∀ out : List Char, smart_eol_step (smart_eol_step out) = smart_eol_step out) ∧
    (∀ (rec repl : StrMap String) (defaults : List String)
        (mid bs : List Block) (out : List Char),
      (∀ b ∈ mid, ∀ o, renderBlock rec repl defaults o b = .ok o) →
      renderBlocks rec repl defaults (.smart_eol :: (mid ++ .smart_eol :: bs)) out =
        renderBlocks rec repl defaults (.smart_eol :: bs) out) := by
  have hstep : ∀ out : List Char, out.head? ≠ some '\n' →
      smart_eol_step out = '\n' :: '.' :: stripTrailingSeps out := by
    intro out h
    unfold smart_eol_step
    split
    · exact absurd rfl h
    · rfl
  have hnl : ∀ out : List Char, smart_eol_step ('\n' :: out) = '\n' :: out := by
    intro out
    rfl
  refine ⟨hnl, hstep, ?_, ?_⟩
  · intro out
    obtain ⟨rest, hr⟩ := smart_eol_step_head out
    rw [hr, hnl]
  · intro rec repl defaults mid bs out h
    obtain ⟨rest, hr⟩ := smart_eol_step_head out
    calc renderBlocks rec repl defaults (.smart_eol :: (mid ++ .smart_eol :: bs)) out
        = renderBlocks rec repl defaults (mid ++ .smart_eol :: bs)
            (smart_eol_step out) := by simp [renderBlocks, renderBlock]
      _ = renderBlocks rec repl defaults (.smart_eol :: bs) (smart_eol_step out) :=
          renderBlocks_append_discarded rec repl defaults mid _ _ h
      _ = renderBlocks rec repl defaults bs (smart_eol_step (smart_eol_step out)) := by
          simp [renderBlocks, renderBlock]
      _ = renderBlocks rec repl defaults bs (smart_eol_step out) := by
          rw [hr, hnl]
      _ = renderBlocks rec repl defaults (.smart_eol :: bs) out := by
          simp [renderBlocks, renderBlock]

/-- C7 witness: the line "Paino: 5, " followed by two SMART_EOL markers
separated by a fully-discarded block ends in a single ".\n". -/
theorem c7_smart_eol_idempotent_witness :
    renderBlocks [("A", "5")] [] ["B"]
        (.smart_eol :: ([Block.lit "b: \x7bB\x7d, "] ++ .smart_eol :: []))
        (' ' :: ',' :: '5' :: ' ' :: ':' :: 'P' :: []) =
      renderBlocks [("A", "5")] [] ["B"] [.smart_eol]
        (' ' :: ',' :: '5' :: ' ' :: ':' :: 'P' :: []) ∧
    smart_eol_step (smart_eol_step (' ' :: ',' :: '5' :: [])) =
      smart_eol_step (' ' :: ',' :: '5' :: []) := by
  constructor
  · apply c7_smart_eol_idempotent.2.2.2
    intro b hb o
    simp only [List.mem_singleton] at hb
    subst hb
    simp only [renderBlock]
    rw [if_pos]
    constructor
    · decide
    · decide
  · exact c7_smart_eol_idempotent.2.2.1 _

/-! ## Claim theorems: checkbox state mapping -/

/-- C8: reading a Boolean field maps underlying state 0 to the "not yes"
label and state 2 to the "yes" label, raises on any other observed state
(in particular the indeterminate state 1), and no legal write ever stores
state 1. -/
theorem c8_checkbox_states (no_text yes_text : String) :
    checkbox_getval 0 no_text yes_text = .ok no_text ∧
    checkbox_getval 2 no_text yes_text = .ok yes_text ∧
    (∀ s : Nat, s ≠ 0 → s ≠ 2 →
      checkbox_getval s no_text yes_text =
        .error ("Unexpected checkbox value: " ++ toString s)) ∧
    (∀ v : String, checkbox_setval v no_text yes_text ≠ .ok 1) := by
  refine ⟨rfl, rfl, ?_, ?_⟩
  · intro s h0 h2
    simp [checkbox_getval, h0, h2]
  · intro v
    unfold checkbox_setval
    split_ifs <;> simp

/-- C8 witness: concrete labels; state 1 raises, and neither label write
stores state 1. -/
theorem c8_checkbox_states_witness :
    checkbox_getval 1 "EI" "Kylla" =
      .error ("Unexpected checkbox value: " ++ toString (1 : Nat)) ∧
    checkbox_setval "Kylla" "EI" "Kylla" ≠ .ok 1 := by
  exact ⟨(c8_checkbox_states "EI" "Kylla").2.2.1 1 (by decide) (by decide),
    (c8_checkbox_states "EI" "Kylla").2.2.2 "Kylla"⟩

/-! ## Claim theorems: derived fields are read-only -/

/-- C2: after widget initialization every derived (auto-calculated) widget
is disabled, and the registry-level set of a derived field is rejected
with ReadOnlyFieldError, producing no successor state — the record is
untouched by the attempt. -/
theorem c2_derived_set_rejected :
    (∀ ws : List Widget, ∀ w ∈ disable_autowidgets ws,
      w.autoinputs.isSome = true → w.enabled = false) ∧
    (∀ (fuel : Nat) (st : AppState) (wname : String) (v : Val),
      isDerived st wname = true →
      registry_set fuel st wname v = .error "ReadOnlyFieldError" ∧
      ∀ st' : AppState, registry_set fuel st wname v ≠ .ok st') := by
  constructor
  · intro ws w hw hsome
    simp only [disable_autowidgets, List.mem_map] at hw
    obtain ⟨u, _, rfl⟩ := hw
    by_cases h : u.autoinputs.isSome
    · simp [h]
    · rw [if_neg h] at hsome ⊢
      exact absurd hsome h
  · intro fuel st wname v h
    refine ⟨by simp [registry_set, h], ?_⟩
    intro st'
    simp [registry_set, h]

/-- C2 witness: setting the weight-normalized autowidget of the demo state
is rejected. -/
theorem c2_derived_set_rejected_witness :
    registry_set 2 demo_state "spX" (Val.num 5) = .error "ReadOnlyFieldError" :=
  (c2_derived_set_rejected.2 2 demo_state "spX" (Val.num 5) (by decide)).1

/-! ## Claim theorems: deterministic export -/

/-- C9: the backup export is deterministic — two exports of the same
record and identity data are byte-identical — and its JSON object carries
exactly the record's fields plus the four identity fields, in sorted key
order, with the raw record values. -/
theorem c9_export_deterministic :
    (∀ (st st' : AppState) (p p' : PatientIdData),
      st.data = st'.data → p = p' →
      save_file_content st p = save_file_content st' p') ∧
    (∀ (st : AppState) (p : PatientIdData),
      List.Sorted (· ≤ ·) (dictKeys (export_pairs st p))) ∧
    (∀ (st : AppState) (p : PatientIdData),
      List.Perm (export_pairs st p)
        (dictUnion st.data (get_patient_id_data p))) := by
  refine ⟨?_, ?_, ?_⟩
  · intro st st' p p' h1 h2
    unfold save_file_content export_pairs
    rw [h1, h2]
  · intro st p
    have hs := List.sorted_insertionSort keyLE
      (dictUnion st.data (get_patient_id_data p))
    exact List.Pairwise.map Prod.fst (fun a b hab => hab) hs
  · intro st p
    exact List.perm_insertionSort keyLE _

/-- C9 witness: two distinct states sharing the same record export
byte-identically. -/
theorem c9_export_deterministic_witness :
    save_file_content demo_state demo_patient =
      save_file_content demo_locked demo_patient :=
  c9_export_deterministic.1 demo_state demo_locked demo_patient demo_patient
    rfl rfl

end Gaitbase
